import Mathlib

/-
  Verification development for the `oscontainer` library.

  The library inspects Linux cgroup (v1 and v2) pseudo-files and exposes
  normalized resource limits (cpu quota/period/shares, memory limit) plus an
  `active_processor_count` computation.  This file gives a shallow embedding
  of the relevant Python functions and proves properties about them.

  Conventions of the embedding:
  * Python `int` is modelled as `Int` (arbitrary precision in both).
  * Python strings are modelled as Lean `String`; the handful of Python
    string methods used by the source (`startswith`, `replace`, `find`,
    `in`, `int(...)` parsing) are re-implemented below on `List Char` with
    Python's exact semantics, because the corresponding Lean builtins do
    not reduce in the kernel.
  * Fallible Python code is modelled with `Except String α`; the error
    string names the Python exception class that would be raised.
  * Functions whose natural recursion is not structural take an explicit
    fuel argument so that they stay kernel-computable; the public wrappers
    supply fuel that is always sufficient.
  * Where the Python source computes with `float`, the embedding follows
    IEEE-754 binary64 semantics.  The `math.ceil(float(a) / float(b))`
    steps of `active_processor_count` are modelled bit-faithfully by the
    integer-arithmetic binary64 model below: `float(n)` rounds to 53
    significant bits (nearest, ties to even) and overflows at `2^1024`,
    and the division is correctly rounded.  The remaining float steps
    (`int(float(x) / 9999.0)` and `math.floor(x / 1024)` in the v2
    `cpu_shares` conversion) are modelled with exact integer arithmetic,
    which coincides with the double computation on the kernel's
    `cpu.weight` range `1..10000` (quotients of magnitude well below
    `2^52`).
-/

namespace Oscontainer

/-! ## constants.py -/

/-- `NO_LIMIT` from `constants.py`: the value indicating no limit. -/
def NO_LIMIT : Int := -1

/-- `PER_CPU_SHARES` from `constants.py`. -/
def PER_CPU_SHARES : Int := 1024

/-! ## Python string primitives (exact `str` semantics on `List Char`) -/

namespace Py

/-- Python `\s` / `str.isspace` for the ASCII range (the only characters
occurring in kernel pseudo-files). -/
def isSpaceChar (c : Char) : Bool :=
  c = ' ' ∨ c = '\t' ∨ c = '\n' ∨ c = '\r' ∨ c = '\x0b' ∨ c = '\x0c'

/-- `pre` is a prefix of `s` (Python `str.startswith`, list form). -/
def startswithL : List Char → List Char → Bool
  | _, [] => true
  | [], _ :: _ => false
  | c :: s, p :: ps => c = p && startswithL s ps

/-- Python `str.startswith`. -/
def startswith (s pre : String) : Bool :=
  startswithL s.toList pre.toList

/-- Helper for `find`: index of the leftmost occurrence of `pat` in `s`,
counting from `i`. -/
def findL : List Char → List Char → Nat → Option Nat
  | s, pat, i =>
    if startswithL s pat then some i
    else
      match s with
      | [] => none
      | _ :: t => findL t pat (i + 1)

/-- Python `str.find`: leftmost index of `pat` in `s`, or `-1`. -/
def find (s pat : String) : Int :=
  match findL s.toList pat.toList 0 with
  | some i => (i : Int)
  | none => -1

/-- Python `in` (`str.__contains__`). -/
def containsStr (s pat : String) : Bool :=
  0 ≤ find s pat

/-- Fueled worker for Python `str.replace` (replace every non-overlapping
occurrence, scanning left to right; an empty pattern matches at every gap). -/
def replaceL (old new : List Char) : Nat → List Char → List Char
  | 0, s => s
  | _ + 1, [] => if old = [] then new else []
  | fuel + 1, c :: t =>
    if old ≠ [] ∧ startswithL (c :: t) old then
      new ++ replaceL old new fuel ((c :: t).drop old.length)
    else if old = [] then
      new ++ c :: replaceL old new fuel t
    else
      c :: replaceL old new fuel t

/-- Python `str.replace s old new` (all occurrences). -/
def replace (s old new : String) : String :=
  ⟨replaceL old.toList new.toList (s.length + 1) s.toList⟩

/-- Python `int(str)`: optional surrounding whitespace, optional sign, at
least one decimal digit; anything else raises `ValueError`. -/
def intParse (s : String) : Except String Int :=
  let t := ((s.toList.dropWhile fun c => isSpaceChar c).reverse.dropWhile
    fun c => isSpaceChar c).reverse
  let core : List Char × Bool :=
    match t with
    | '-' :: r => (r, true)
    | '+' :: r => (r, false)
    | r => (r, false)
  if core.1 ≠ [] ∧ core.1.all (fun c => c.isDigit) then
    let mag : Int := core.1.foldl (fun acc c => acc * 10 + ((c.toNat : Int) - 48)) 0
    .ok (if core.2 then -mag else mag)
  else
    .error "ValueError: invalid literal for int"

end Py

/-! ## Exact integer ceiling and truncation helpers -/

/-- Exact integer ceiling `⌈a / b⌉` for `0 < b`: `(a + b - 1) / b` with
floor (Euclidean) division.  Used by the binary64 model's `ceilDyadic`
below, and by the v2 `cpu_shares` model, whose float computation is exact
on the kernel's `cpu.weight` range. -/
def ceilDivInt (a b : Int) : Int := (a + b - 1) / b

/-- `int(float(a) / float(b))` for `0 < b` in the v2 `cpu_shares`
conversion: Python `int()` truncates the quotient toward zero (the double
quotient is exact on the reachable range, so truncating the exact
quotient is faithful). -/
def truncDivInt (a b : Int) : Int := if 0 ≤ a then a / b else -((-a) / b)

/-! ## scanf.py

The source translates a scanf-style format string into a regular expression
(`_scanf_compile`) and applies `re.search` to the line (`scanf`).  The
embedding keeps the compiled form as an AST (a list of `Item`s plus the
list of value casters) instead of a regex string; each table entry of
`scanf_translate` corresponds to one `TokKind`, and the fragment each entry
emits is reproduced by `tokCands`, which lists the lengths a fragment can
consume at the head of the input in exactly the backtracking preference
order of the regex engine (greedy quantifiers longest-first, alternation
left-first).  Literal whitespace collapsing (`re.sub(r'\s+', r'\\s+', ...)`
with `collapse_whitespace=True`, the only mode the library uses) becomes a
pass merging runs of literal whitespace items into a single `ws` item; this
is equivalent because no emitted fragment contains a literal whitespace
character. -/

namespace Scanf

/-- A value produced by a scanf cast.  Floats are kept as their matched
lexeme: no claim inspects a float value, and the tuple structure is all
that matters. -/
inductive PyVal where
  | vstr (s : String)
  | vint (n : Int)
  | vfloat (lit : String)
deriving DecidableEq

/-- The cast attached to a capturing table entry of `scanf_translate`. -/
inductive Cast where
  | cid
  | cint
  | chex
  | coct
  | cfloat
deriving DecidableEq

/-- One scanf token kind; each corresponds to one pair of entries
(plain and `%*`) of `scanf_translate`. -/
inductive TokKind where
  | c1
  | cN (n : Nat)
  | dN (n : Nat)
  | d
  | u
  | f
  | s
  | x (upper : Bool)
  | o
deriving DecidableEq

/-- One element of the compiled pattern: a literal character, a collapsed
whitespace run (`\s+`), or a token with its capture flag (`false` for the
`%*` discard variants, which compile to non-capturing groups). -/
inductive Item where
  | lit (ch : Char)
  | ws
  | tok (k : TokKind) (capture : Bool)
deriving DecidableEq

/-- Whether the item contributes a capture group. -/
def Item.isCapture : Item → Bool
  | .tok _ cap => cap
  | _ => false

/-- The cast column of `scanf_translate` for each token kind. -/
def castOf : TokKind → Cast
  | .c1 => .cid
  | .cN _ => .cid
  | .dN _ => .cint
  | .d => .cint
  | .u => .cint
  | .f => .cfloat
  | .s => .cid
  | .x _ => .chex
  | .o => .coct

/-- Recognize the body of a token (the part after `%` or `%*`). Returns the
kind and the number of format characters consumed by the body.  The bodies
of the table entries are pairwise disjoint, so first-match order coincides
with the table order of `scanf_translate`. -/
def parseBody : List Char → Option (TokKind × Nat)
  | 'c' :: _ => some (.c1, 1)
  | 'd' :: _ => some (.d, 1)
  | 'i' :: _ => some (.d, 1)
  | 'u' :: _ => some (.u, 1)
  | 'f' :: _ => some (.f, 1)
  | 'g' :: _ => some (.f, 1)
  | 'e' :: _ => some (.f, 1)
  | 'E' :: _ => some (.f, 1)
  | 's' :: _ => some (.s, 1)
  | 'x' :: _ => some (.x false, 1)
  | 'X' :: _ => some (.x true, 1)
  | 'o' :: _ => some (.o, 1)
  | a :: 'c' :: _ => if a.isDigit then some (.cN (a.toNat - 48), 2) else none
  | a :: 'd' :: _ => if a.isDigit then some (.dN (a.toNat - 48), 2) else none
  | a :: 'i' :: _ => if a.isDigit then some (.dN (a.toNat - 48), 2) else none
  | _ => none

/-- Result of matching one token of the format string. -/
structure TokMatch where
  kind : TokKind
  star : Bool
  len : Nat

/-- Try all entries of `scanf_translate` at the head of the format string. -/
def tokenMatch : List Char → Option TokMatch
  | '%' :: '*' :: rest =>
    match parseBody rest with
    | some (k, n) => some ⟨k, true, n + 2⟩
    | none => none
  | '%' :: rest =>
    match parseBody rest with
    | some (k, n) => some ⟨k, false, n + 1⟩
    | none => none
  | _ => none

/-- The compile loop of `_scanf_compile`: emit an item per matched token
(appending its cast for non-discard tokens, as `cast_list.append(cast)`
does), and a literal item per unmatched character.  Fueled; each step
consumes at least one character. -/
def compileAux : Nat → List Char → List Item × List Cast
  | 0, _ => ([], [])
  | _ + 1, [] => ([], [])
  | fuel + 1, ch :: rest =>
    match tokenMatch (ch :: rest) with
    | some tm =>
      let r := compileAux fuel ((ch :: rest).drop tm.len)
      (.tok tm.kind (!tm.star) :: r.1, if tm.star then r.2 else castOf tm.kind :: r.2)
    | none =>
      let r := compileAux fuel rest
      (.lit ch :: r.1, r.2)

/-- Merge maximal runs of literal whitespace into one `ws` item
(the `re.sub(r'\s+', r'\\s+', format_pat)` step). -/
def collapseWsAux : Bool → List Item → List Item
  | _, [] => []
  | inWs, .lit c :: rest =>
    if Py.isSpaceChar c then
      if inWs then collapseWsAux true rest
      else .ws :: collapseWsAux true rest
    else .lit c :: collapseWsAux false rest
  | _, it :: rest => it :: collapseWsAux false rest

/-- `_scanf_compile` with `collapse_whitespace=True`: the compiled item list
and the cast list. -/
def scanf_compile (format_str : String) : List Item × List Cast :=
  let r := compileAux (format_str.length + 1) format_str.toList
  (collapseWsAux false r.1, r.2)

/-! ### Fragment matching semantics

`tokCands k s` is the list of lengths the regex fragment of token `k` can
consume at the head of `s`, in backtracking preference order. -/

/-- Length of the maximal run of characters satisfying `p`. -/
def runLenP (p : Char → Bool) : List Char → Nat
  | [] => 0
  | c :: t => if p c then runLenP p t + 1 else 0

/-- Candidates of a greedy `p+`: the maximal run length down to 1. -/
def plusCands (p : Char → Bool) (s : List Char) : List Nat :=
  let n := runLenP p s
  (List.range n).map fun i => n - i

/-- Candidates of a greedy `p*`: the maximal run length down to 0. -/
def starCands (p : Char → Bool) (s : List Char) : List Nat :=
  let n := runLenP p s
  (List.range (n + 1)).map fun i => n - i

/-- Candidates of a single character matching `p`. -/
def charCands (p : Char → Bool) : List Char → List Nat
  | [] => []
  | c :: _ => if p c then [1] else []

/-- Sequencing of two fragments (preference order: outer fragment first). -/
def seqCands (a b : List Char → List Nat) (s : List Char) : List Nat :=
  (a s).flatMap fun n => (b (s.drop n)).map fun m => n + m

/-- Alternation (left branch preferred). -/
def altCands (a b : List Char → List Nat) (s : List Char) : List Nat :=
  a s ++ b s

/-- Greedy option `x?`: matching preferred over empty. -/
def optCands (a : List Char → List Nat) (s : List Char) : List Nat :=
  a s ++ [0]

/-- `[+-]` (sign of `%d`; the float fragment uses `[-+]`, same set). -/
def signCands : List Char → List Nat :=
  charCands fun c => c = '+' || c = '-'

/-- The first `n` characters exist and are all decimal digits. -/
def allDigitsTake (n : Nat) (l : List Char) : Bool :=
  (l.take n).length = n && (l.take n).all fun c => c.isDigit

/-- The character class `[\dA-Za-f]` exactly as written in the `%x` table
entry (note: it admits all of `A-Z`, not just `A-F`). -/
def hexClassChar (c : Char) : Bool :=
  c.isDigit || ('A' ≤ c && c ≤ 'Z') || ('a' ≤ c && c ≤ 'f')

/-- The float fragment
`([-+]?(?:\d+(?:\.\d*)?|\.\d+)(?:[eE][-+]?\d+)?)`. -/
def floatCands : List Char → List Nat :=
  seqCands (optCands signCands)
    (seqCands
      (altCands
        (seqCands (plusCands fun c => c.isDigit)
          (optCands (seqCands (charCands fun c => c = '.')
            (starCands fun c => c.isDigit))))
        (seqCands (charCands fun c => c = '.') (plusCands fun c => c.isDigit)))
      (optCands (seqCands (charCands fun c => c = 'e' || c = 'E')
        (seqCands (optCands signCands) (plusCands fun c => c.isDigit)))))

/-- Candidate consumed lengths for each token fragment. -/
def tokCands : TokKind → List Char → List Nat
  | .c1, s => charCands (fun c => c ≠ '\n') s
  | .cN n, s =>
    if (s.take n).length = n && (s.take n).all (fun c => c ≠ '\n') then [n] else []
  | .dN n, s =>
    (match s with
     | c :: t => if (c = '+' || c = '-') && allDigitsTake n t then [n + 1] else []
     | [] => []) ++ (if allDigitsTake n s then [n] else [])
  | .d, s =>
    (match s with
     | c :: t => if c = '+' || c = '-' then (plusCands (fun c => c.isDigit) t).map (· + 1) else []
     | [] => []) ++ plusCands (fun c => c.isDigit) s
  | .u, s => plusCands (fun c => c.isDigit) s
  | .f, s => floatCands s
  | .s, s => plusCands (fun c => !(Py.isSpaceChar c)) s
  | .x upper, s =>
    match s with
    | '0' :: c :: t =>
      if c = (if upper then 'X' else 'x') then (plusCands hexClassChar t).map (· + 2) else []
    | _ => []
  | .o, s =>
    match s with
    | '0' :: t => (starCands (fun c => '0' ≤ c && c ≤ '7') t).map (· + 1)
    | _ => []

/-- Candidate consumed lengths for one compiled item. -/
def itemCands : Item → List Char → List Nat
  | .lit ch, s => charCands (fun c => c = ch) s
  | .ws, s => plusCands Py.isSpaceChar s
  | .tok k _, s => tokCands k s

/-- Try candidate lengths in order until the continuation succeeds. -/
def tryLens : List Nat → (Nat → Option α) → Option α
  | [], _ => none
  | n :: ns, f =>
    match f n with
    | some r => some r
    | none => tryLens ns f

/-- Backtracking matcher: match the item list at the head of the input,
returning the list of captured substrings.  Trailing input is ignored, as
with `re.search`.  Fueled by the item-list length. -/
def runItems : Nat → List Item → List Char → Option (List (List Char))
  | 0, _, _ => none
  | _ + 1, [], _ => some []
  | fuel + 1, it :: rest, s =>
    tryLens (itemCands it s) fun n =>
      (runItems fuel rest (s.drop n)).map fun caps =>
        if it.isCapture then s.take n :: caps else caps

/-- `re.search`: try the match at each start position, leftmost first. -/
def searchItems (items : List Item) : List Char → Option (List (List Char))
  | [] => runItems (items.length + 1) items []
  | c :: t =>
    match runItems (items.length + 1) items (c :: t) with
    | some caps => some caps
    | none => searchItems items t

/-- `int(s, 16)` as applied to strings matched by the `%x` fragment
(always `0x`/`0X`-prefixed): `ValueError` if a character is not a
hexadecimal digit — possible, since the fragment's class admits `G`-`Z`. -/
def intParseBase16 (s : String) : Except String Int :=
  let body :=
    match s.toList with
    | '0' :: 'x' :: r => r
    | '0' :: 'X' :: r => r
    | r => r
  let val : Char → Option Nat := fun c =>
    if c.isDigit then some (c.toNat - 48)
    else if 'a' ≤ c ∧ c ≤ 'f' then some (c.toNat - 87)
    else if 'A' ≤ c ∧ c ≤ 'F' then some (c.toNat - 55)
    else none
  if body ≠ [] ∧ body.all (fun c => (val c).isSome) then
    .ok (body.foldl (fun acc c => acc * 16 + (((val c).getD 0 : Nat) : Int)) 0)
  else
    .error "ValueError: invalid literal for int with base 16"

/-- `int(s, 8)` as applied to strings matched by the `%o` fragment. -/
def intParseBase8 (s : String) : Except String Int :=
  if s.toList ≠ [] ∧ s.toList.all (fun c => '0' ≤ c && c ≤ '7') then
    .ok (s.toList.foldl (fun acc c => acc * 8 + (((c.toNat : Int)) - 48)) 0)
  else
    .error "ValueError: invalid literal for int with base 8"

/-- Apply one cast to one captured substring. -/
def applyCast : Cast → List Char → Except String PyVal
  | .cid, g => .ok (.vstr ⟨g⟩)
  | .cint, g => (Py.intParse ⟨g⟩).map .vint
  | .chex, g => (intParseBase16 ⟨g⟩).map .vint
  | .coct, g => (intParseBase8 ⟨g⟩).map .vint
  | .cfloat, g => .ok (.vfloat ⟨g⟩)

/-- `[casts[i](groups[i]) for i in range(len(groups))]`: the groups drive
the iteration; a missing cast would be an `IndexError`. -/
def applyCasts : List Cast → List (List Char) → Except String (List PyVal)
  | _, [] => .ok []
  | [], _ :: _ => .error "IndexError: cast list exhausted"
  | c :: cs, g :: gs =>
    match applyCast c g with
    | .error e => .error e
    | .ok v =>
      match applyCasts cs gs with
      | .error e => .error e
      | .ok vs => .ok (v :: vs)

/-- `scanf(format_str, line)`: `.ok none` models Python's `None`
("no match"), `.ok (some vals)` models the result tuple, `.error` a raised
exception. -/
def scanf (format_str line : String) : Except String (Option (List PyVal)) :=
  let r := scanf_compile format_str
  match searchItems r.1 line.toList with
  | none => .ok none
  | some groups =>
    match applyCasts r.2 groups with
    | .error e => .error e
    | .ok vals => .ok (some vals)

/-- Number of capturing items of a compiled pattern. -/
def captureCount (items : List Item) : Nat :=
  (items.filter fun it => it.isCapture).length

end Scanf

/-! ## utils.py -/

/-- `len(x)` on a value that is either `None` or a single scanf value:
`None` and numbers have no `len()`; a string does. -/
def pyLenOfOptVal : Option Scanf.PyVal → Except String Nat
  | none => .error "TypeError: object of type NoneType has no len()"
  | some (.vstr s) => .ok s.length
  | some (.vint _) => .error "TypeError: object of type int has no len()"
  | some (.vfloat _) => .error "TypeError: object of type float has no len()"

/-- `len(x)` on a value that is either `None` (no match) or a scanf result
tuple. -/
def pyLenOfOptTuple : Option (List Scanf.PyVal) → Except String Nat
  | none => .error "TypeError: object of type NoneType has no len()"
  | some l => .ok l.length

/-- `limit_from_str` from `utils.py`.  The argument is `None` or the value
scanf produced for a `%s` capture (always a string in the program). -/
def limit_from_str : Option Scanf.PyVal → Except String Int
  | none => .error "OSContainerError: limit is None"
  | some (.vstr s) => if s = "max" then .ok NO_LIMIT else Py.intParse s
  | some (.vint n) => .ok n
  | some (.vfloat _) => .error "TypeError: unreachable in the program"

/-- `load_multiline_scan` from `utils.py`, over the file's lines (each line
still carrying its newline, as Python file iteration yields them): for the
first line containing `match_line` whose scan result has length 2, return
element 1 of that result.  `len(res)` raises `TypeError` when `scanf`
returned `None`. -/
def load_multiline_scan (scan_format match_line : String) :
    List String → Except String (Option Scanf.PyVal)
  | [] => .ok none
  | line :: rest =>
    if Py.containsStr line match_line then
      match Scanf.scanf scan_format line with
      | .error e => .error e
      | .ok res =>
        match pyLenOfOptTuple res with
        | .error e => .error e
        | .ok n =>
          if n = 2 then
            match res with
            | some (_ :: v :: _) => .ok (some v)
            | _ => .error "IndexError: unreachable"
          else load_multiline_scan scan_format match_line rest
    else load_multiline_scan scan_format match_line rest

/-- `load_scan` from `utils.py`: scan the (stripped) file content with the
format.  The content string is taken as input; `load` itself is I/O. -/
def load_scan (content scan_format : String) : Except String (Option (List Scanf.PyVal)) :=
  Scanf.scanf scan_format content

/-! ## cgroup_v1_subsystem.py -/

/-- `CgroupV1Controller.set_subsystem_path` for non-`None` `root` and
`cgroup_path` (the `None` case raises `OSContainerError` and is outside the
claims): the computed `subsystem_path`. -/
def CgroupV1Controller.set_subsystem_path (root mount_point cgroup_path : String) : String :=
  if root = "/" then
    -- host
    if cgroup_path ≠ "/" then mount_point ++ cgroup_path else mount_point
  else
    -- container
    if Py.startswith cgroup_path root ∧ cgroup_path ≠ root then
      mount_point ++ Py.replace cgroup_path root ""
    else
      mount_point

/-- `CgroupV1Subsystem.cpu_shares`, as a function of the integer read from
`cpu.shares`. -/
def CgroupV1Subsystem.cpu_shares (shares : Int) : Int :=
  if shares = PER_CPU_SHARES then NO_LIMIT else shares

/-- `CgroupV1Subsystem.memory_limit_in_bytes`, as a function of the
physical-memory ceiling (`SC_PAGE_SIZE * SC_PHYS_PAGES`), the integer read
from `memory.limit_in_bytes`, the controller's `is_hierarchical` flag, and
the lines of `memory.stat`.  Mirrors the source exactly, including the
`len(hier_memlimit_str)` applied to the already-extracted scan value. -/
def CgroupV1Subsystem.memory_limit_in_bytes (unlimited_memory memlimit : Int)
    (is_hierarchical : Bool) (stat_lines : List String) : Except String Int :=
  if memlimit ≥ unlimited_memory then
    if is_hierarchical then
      match load_multiline_scan "%s %d" "hierarchical_memory_limit" stat_lines with
      | .error e => .error e
      | .ok hier_memlimit_str =>
        match pyLenOfOptVal hier_memlimit_str with
        | .error e => .error e
        | .ok n =>
          -- only a string value can reach this point; indexing it and
          -- comparing the character against an int raises TypeError
          if n = 2 then .error "TypeError: not supported between str and int"
          else .ok NO_LIMIT
    else .ok NO_LIMIT
  else .ok memlimit

/-! ## cgroup_v2_subsystem.py -/

/-- `CgroupV2Subsystem.cpu_shares`, as a function of the integer read from
`cpu.weight`.  `int(frac)` and the `math.floor`/`math.ceil` on exact binary
fractions are modelled with exact integer arithmetic (exact for every
weight the kernel admits, `1..10000`). -/
def CgroupV2Subsystem.cpu_shares (shares : Int) : Int :=
  if shares = 100 then NO_LIMIT
  else
    let x0 := 262142 * shares - 1
    let x := truncDivInt x0 9999 + 2
    if x ≤ PER_CPU_SHARES then x
    else
      let lower_multiple := (x / 1024) * 1024
      let upper_multiple := ceilDivInt x 1024 * 1024
      let distance_lower := max lower_multiple x - min lower_multiple x
      let distance_upper := max upper_multiple x - min upper_multiple x
      if distance_lower ≤ distance_upper then lower_multiple else upper_multiple

/-- `CgroupV2Subsystem.cpu_quota`, as a function of the (stripped) content
of `cpu.max`.  `len(cpu_quota_res)` raises `TypeError` when `scanf`
returned `None` (no match). -/
def CgroupV2Subsystem.cpu_quota (content : String) : Except String Int :=
  match load_scan content "%s %*d" with
  | .error e => .error e
  | .ok cpu_quota_res =>
    match pyLenOfOptTuple cpu_quota_res with
    | .error e => .error e
    | .ok n =>
      if n = 0 then .ok NO_LIMIT
      else
        match cpu_quota_res with
        | some (v :: _) => limit_from_str (some v)
        | _ => .error "IndexError: unreachable"

/-- `CgroupV2Subsystem.cpu_period`, as a function of the (stripped) content
of `cpu.max`. -/
def CgroupV2Subsystem.cpu_period (content : String) : Except String Int :=
  match load_scan content "%*s %d" with
  | .error e => .error e
  | .ok cpu_period_res =>
    match pyLenOfOptTuple cpu_period_res with
    | .error e => .error e
    | .ok n =>
      if n = 0 then .ok NO_LIMIT
      else
        match cpu_period_res with
        | some (.vint v :: _) => .ok v
        | _ => .error "IndexError: unreachable"

/-! ## IEEE-754 binary64 model

`active_processor_count` computes `math.ceil(float(a) / float(b))`, so its
behavior depends on genuine double-precision semantics: `float(n)` rounds
the integer to 53 significant bits (round to nearest, ties to even) and
raises `OverflowError` for magnitudes reaching `2^1024`, and the division
is correctly rounded.  The model below implements exactly that.  A
nonnegative double is represented as a pair `(M, E) : Nat × Int` denoting
the dyadic rational `M * 2^E` (the representation is not required to be
normalized; only its value matters).  All computations are over `Nat`/`Int`
so that they reduce in the kernel. -/

/-- Number of binary digits of `n` (`0` for `0`), by fueled halving.
Correct whenever `n < 2^fuel`; every use below passes `natBitsFuel`,
sufficient for all magnitudes arising from doubles and their quotients
(below `2^2200`). -/
def natBits : Nat → Nat → Nat
  | 0, _ => 0
  | fuel + 1, n => if n = 0 then 0 else natBits fuel (n / 2) + 1

/-- Fuel for `natBits`: doubles have magnitudes in
`[2^-1074, 2^1024)`, so the integer numerators and denominators handled by
`roundPosRat` stay below `2^2200`. -/
def natBitsFuel : Nat := 2200

/-- Decides `2^k ≤ num / den` (for `den > 0`) by cross-multiplication. -/
def le2pow (k : Int) (num den : Nat) : Bool :=
  if 0 ≤ k then den * 2^k.toNat ≤ num else den ≤ num * 2^(-k).toNat

/-- Round `N / D` (for `D > 0`) to the nearest integer, ties to even. -/
def rheNatDiv (N D : Nat) : Nat :=
  let q := N / D
  let r := N % D
  if 2 * r < D then q
  else if D < 2 * r then q + 1
  else if q % 2 = 0 then q else q + 1

/-- Round `(num / den) * 2^s` to the nearest integer, ties to even. -/
def rheScaled (num den : Nat) (s : Int) : Nat :=
  if 0 ≤ s then rheNatDiv (num * 2^s.toNat) den else rheNatDiv num (den * 2^(-s).toNat)

/-- The decimal value of `2^53` (written out so that concrete evaluation
does not have to reduce an exponentiation). -/
def TWO_POW_53 : Nat := 9007199254740992

/-- The decimal value of `2^1024`, the IEEE binary64 overflow boundary. -/
def TWO_POW_1024 : Nat := 179769313486231590772930519078902473361797697894230657273430081157732675805500963132708477322407536021120113879871393357658789768814416622492847430639474124377767893424865485276302219601246094119453082952085005768838150682342462881473913110540827237163350510684586298239947245938479716304835356329624224137216

/-- `⌊log2 (num / den)⌋` for positive `num`, `den` below `2^natBitsFuel`:
bracket with the bit lengths, then correct with one comparison. -/
def ratLog2 (num den : Nat) : Int :=
  let k0 : Int := (natBits natBitsFuel num : Int) - (natBits natBitsFuel den : Int)
  if le2pow k0 num den then k0 else k0 - 1

/-- Round the nonnegative rational `num / den` (`den > 0`) to the nearest
IEEE binary64 value: result `(M, E)` with value `M * 2^E`; subnormals use
the fixed quantum `2^-1074`; magnitudes rounding to `2^1024` overflow
(in Python the overflow surfaces as `OverflowError`, either at `float()`
or as an infinite quotient rejected by `math.ceil`). -/
def roundPosRat (num den : Nat) : Except String (Nat × Int) :=
  if num = 0 then .ok (0, 0)
  else
    let k : Int := ratLog2 num den
    if k < -1022 then
      .ok (rheScaled num den 1074, -1074)
    else
      let M := rheScaled num den (52 - k)
      if 1024 ≤ k ∨ (k = 1023 ∧ M = TWO_POW_53) then .error "OverflowError"
      else .ok (M, k - 52)

/-- Python `float(n)` for the nonnegative integers reaching it in this
program: magnitudes at or above `2^1024` certainly overflow (the true
threshold `2^1024 - 2^970` is handled by the rounding itself). -/
def pyFloatNat (n : Nat) : Except String (Nat × Int) :=
  if TWO_POW_1024 ≤ n then .error "OverflowError: int too large to convert to float"
  else roundPosRat n 1

/-- IEEE division of two nonnegative doubles (`y ≠ 0`): the correctly
rounded value of the exact quotient. -/
def floatDiv (x y : Nat × Int) : Except String (Nat × Int) :=
  let e := x.2 - y.2
  if 0 ≤ e then roundPosRat (x.1 * 2^e.toNat) y.1
  else roundPosRat x.1 (y.1 * 2^(-e).toNat)

/-- `math.ceil` of a nonnegative double `(M, E)`: the exact ceiling of
`M * 2^E`. -/
def ceilDyadic (x : Nat × Int) : Int :=
  if 0 ≤ x.2 then (x.1 : Int) * 2^x.2.toNat
  else ceilDivInt (x.1 : Int) (2^(-x.2).toNat)

/-- `math.ceil(float(a) / float(b))` as the program computes it.  The call
sites guarantee `0 ≤ a` and `0 < b` (the `quota > NO_LIMIT and period > 0`
and `share > NO_LIMIT` guards), so conversion of negative integers never
occurs.  Exceptions arise in Python's order: `float(a)` first, then
`float(b)`, then the division/`math.ceil`. -/
def mathCeilFloatDiv (a b : Int) : Except String Int :=
  match pyFloatNat a.toNat with
  | .error e => .error e
  | .ok fa =>
    match pyFloatNat b.toNat with
    | .error e => .error e
    | .ok fb =>
      if fb.1 = 0 then .error "ZeroDivisionError: float division by zero"
      else
        match floatDiv fa fb with
        | .error _ => .error "OverflowError: cannot convert float infinity to integer"
        | .ok fd => .ok (ceilDyadic fd)

/-! ## cgroup_subsystem.py -/

/-- `CgroupSubsystem.active_processor_count`, as a function of the values
returned by `cpu_quota()`, `cpu_period()`, `cpu_shares()` and the host CPU
count (`host_cpu_count` when supplied, otherwise the affinity-set size).
The two `math.ceil(float(.) / float(.))` computations go through the
binary64 model above, so float rounding and `OverflowError` are part of
the embedding; an exception propagates out of the function. -/
def CgroupSubsystem.active_processor_count
    (quota period share : Int) (prefer_container_quota : Bool) (cpu_count : Int) :
    Except String Int :=
  match (if NO_LIMIT < quota ∧ 0 < period then mathCeilFloatDiv quota period else .ok 0) with
  | .error e => .error e
  | .ok quota_count =>
    match (if NO_LIMIT < share then mathCeilFloatDiv share PER_CPU_SHARES else .ok 0) with
    | .error e => .error e
    | .ok share_count =>
      let limit_count : Int :=
        if quota_count ≠ 0 ∧ share_count ≠ 0 then
          if prefer_container_quota then quota_count else min quota_count share_count
        else if quota_count ≠ 0 then quota_count
        else if share_count ≠ 0 then share_count
        else cpu_count
      .ok (min cpu_count limit_count)

/-! ## cgroups.py -/

/-- The duplicate-cpuset decision inside `_read_mount_points`
(`cgroups.py` lines 204-217): given the currently recorded cpuset
`mount_path` (`None` if not yet recorded) and the mount path `tmp_mount`
of a newly found cpuset mount line, the `mount_path` recorded afterwards.
The source replaces the recorded path iff
`mount_path.find("/sys/fs/cgroup") > 0`. -/
def read_mount_points_cpuset_mount (existing : Option String) (tmp_mount : String) : String :=
  match existing with
  | none => tmp_mount
  | some e => if 0 < Py.find e "/sys/fs/cgroup" then tmp_mount else e

/-! ## os_container.py -/

/-- The state of an `OSContainer` after `__init__`, abstracted over the
subsystem type `S`. -/
structure OSContainer (S : Type) where
  _containerized : Bool
  cgroup_subsystem : Option S
  memory_limit : Option Int

/-- `OSContainer.__init__`: `build_cgroup_subsystem` is the outcome of
topology resolution plus subsystem construction (the `try` block), and
`mem_limit` is the behavior of `cgroup_subsystem.memory_limit_in_bytes()`
(called outside the `try` block). -/
def OSContainer.init {S : Type} (build_cgroup_subsystem : Except String S)
    (mem_limit : S → Except String Int) : Except String (OSContainer S) :=
  match build_cgroup_subsystem with
  | .error _ => .ok ⟨false, none, none⟩
  | .ok sub =>
    match mem_limit sub with
    | .error e => .error e
    | .ok m => .ok ⟨true, some sub, some m⟩

/-- `OSContainer.is_containerized`. -/
def OSContainer.is_containerized {S : Type} (self : OSContainer S) : Bool :=
  self._containerized

/-- `OSContainer.memory_limit_in_bytes`: validates the containerized flag,
then returns the cached `self.memory_limit` (no re-read; the accessor does
not receive the reader). -/
def OSContainer.memory_limit_in_bytes {S : Type} (self : OSContainer S) : Except String Int :=
  if self._containerized then
    match self.memory_limit with
    | some m => .ok m
    | none => .error "AttributeError: memory_limit"
  else .error "OSContainerError: cgroup subsystem not available"

/-! ## Formalizations of the specification's own wording

These definitions follow the sentences of the specification (and of the
claims under scrutiny), to be compared against the source-derived
definitions above. -/

namespace SpecModel

/-- The `active_processor_count` result as the specification words it,
with genuine rational ceilings:
`quota_count = ⌈quota / period⌉` when `quota > -1` and `period > 0` else 0;
`share_count = ⌈shares / 1024⌉` when `shares > -1` else 0; `limit_count`
by the four cases on which counts are nonzero; result clamped to the host
CPU count. -/
def activeProcessorCount (quota period share : Int) (prefer_container_quota : Bool)
    (host_cpu_count : Int) : Int :=
  let quota_count : Int :=
    if -1 < quota ∧ 0 < period then ⌈(quota : ℚ) / (period : ℚ)⌉ else 0
  let share_count : Int :=
    if -1 < share then ⌈(share : ℚ) / 1024⌉ else 0
  let limit_count : Int :=
    if quota_count ≠ 0 ∧ share_count ≠ 0 then
      if prefer_container_quota then quota_count else min quota_count share_count
    else if quota_count ≠ 0 then quota_count
    else if share_count ≠ 0 then share_count
    else host_cpu_count
  min host_cpu_count limit_count

/-- Claim C4's path rule, verbatim: in the nested-container case the
cgroup path has "only its leading root prefix removed". -/
def v1SubsystemPathClaim (root mount_point cgroup_path : String) : String :=
  if root = "/" then
    if cgroup_path = "/" then mount_point else mount_point ++ cgroup_path
  else if Py.startswith cgroup_path root ∧ cgroup_path ≠ root then
    mount_point ++ ⟨cgroup_path.toList.drop root.toList.length⟩
  else mount_point

/-- Claim C4 amended: the source removes every occurrence of `root` from
the cgroup path (`str.replace` semantics), not only the leading one. -/
def v1SubsystemPathAmended (root mount_point cgroup_path : String) : String :=
  if root = "/" then
    if cgroup_path = "/" then mount_point else mount_point ++ cgroup_path
  else if Py.startswith cgroup_path root ∧ cgroup_path ≠ root then
    mount_point ++ Py.replace cgroup_path root ""
  else mount_point

/-- Claim C5's `scaled` value: `floor((262142·w - 1) / 9999) + 2`. -/
def v2SharesScaled (w : Int) : Int := (262142 * w - 1) / 9999 + 2

/-- The multiple of 1024 nearest to `s`, a tie between the two surrounding
multiples broken toward the lower one. -/
def nearestMultipleOf1024 (s : Int) : Int :=
  if s % 1024 ≤ 512 then s - s % 1024 else s - s % 1024 + 1024

/-- Claim C5's description of the v2 `cpu_shares` conversion for weights
other than 100. -/
def v2CpuShares (w : Int) : Int :=
  let scaled := v2SharesScaled w
  if scaled ≤ 1024 then scaled else nearestMultipleOf1024 scaled

/-- Claim C8's duplicate-cpuset rule, verbatim: keep the existing path iff
it is under the canonical prefix while the new one is not; otherwise the
newest wins. -/
def cpusetClaimRule (existing tmp_mount : String) : String :=
  if Py.startswith existing "/sys/fs/cgroup" ∧ ¬ Py.startswith tmp_mount "/sys/fs/cgroup" then
    existing
  else tmp_mount

end SpecModel

/-! ## Supporting lemmas -/

/-- For a positive divisor, `(a + b - 1) / b` is the rational ceiling
of `a / b`. -/
theorem ceilDivInt_eq (a b : Int) (hb : 0 < b) : ceilDivInt a b = ⌈(a : ℚ) / (b : ℚ)⌉ := by
  have hb0 : (0 : ℚ) < (b : ℚ) := by exact_mod_cast hb
  have hbne : b ≠ 0 := by omega
  have hkey : b * ((a + b - 1) / b) + (a + b - 1) % b = a + b - 1 :=
    Int.ediv_add_emod _ _
  have hr0 : 0 ≤ (a + b - 1) % b := Int.emod_nonneg _ hbne
  have hrlt : (a + b - 1) % b < b := Int.emod_lt_of_pos _ hb
  unfold ceilDivInt
  symm
  rw [Int.ceil_eq_iff]
  constructor
  · rw [lt_div_iff₀ hb0]
    have hz : ((a + b - 1) / b - 1) * b < a := by nlinarith
    exact_mod_cast hz
  · rw [div_le_iff₀ hb0]
    have hz : a ≤ ((a + b - 1) / b) * b := by nlinarith
    exact_mod_cast hz

/-- Ceiling division of zero by a positive divisor is zero. -/
theorem ceilDivInt_zero (b : Int) (hb : 0 < b) : ceilDivInt 0 b = 0 := by
  unfold ceilDivInt
  have h1 : (0 : Int) + b - 1 = b - 1 := by ring
  rw [h1]
  exact Int.ediv_eq_zero_of_lt (by omega) (by omega)

/-- If the pattern is a prefix of the string, `findL` reports the start
index. -/
theorem findL_of_startswith (s pat : List Char) (i : Nat)
    (h : Py.startswithL s pat = true) : Py.findL s pat i = some i := by
  unfold Py.findL
  simp [h]

/-- `SpecModel.nearestMultipleOf1024` really is a nearest multiple: it is
divisible by 1024 and no multiple of 1024 is strictly closer. -/
theorem nearestMultipleOf1024_is_nearest (s k : Int) :
    1024 ∣ SpecModel.nearestMultipleOf1024 s ∧
      (SpecModel.nearestMultipleOf1024 s - s).natAbs ≤ (1024 * k - s).natAbs := by
  unfold SpecModel.nearestMultipleOf1024
  constructor
  · split_ifs <;> omega
  · split_ifs <;> omega

namespace Scanf

/-- A successful `tryLens` comes from one of the candidate lengths. -/
theorem tryLens_some {α : Type} (ls : List Nat) (f : Nat → Option α) (r : α)
    (h : tryLens ls f = some r) : ∃ n, n ∈ ls ∧ f n = some r := by
  induction ls with
  | nil => simp [tryLens] at h
  | cons n ns ih =>
    rw [tryLens] at h
    cases hf : f n with
    | some r2 =>
      rw [hf] at h
      simp at h
      exact ⟨n, by simp, by rw [hf, h]⟩
    | none =>
      rw [hf] at h
      simp at h
      obtain ⟨m, hm, hfm⟩ := ih h
      exact ⟨m, by simp [hm], hfm⟩

/-- Unfolding `captureCount` over a cons cell. -/
theorem captureCount_cons (it : Item) (rest : List Item) :
    captureCount (it :: rest) = (if it.isCapture then 1 else 0) + captureCount rest := by
  simp only [captureCount, List.filter_cons]
  split_ifs <;> simp [Nat.add_comm]

/-- A successful match yields exactly one captured substring per capturing
item: discarded (`%*`) tokens never contribute. -/
theorem runItems_length (fuel : Nat) :
    ∀ (items : List Item) (s : List Char) (caps : List (List Char)),
      runItems fuel items s = some caps → caps.length = captureCount items := by
  induction fuel with
  | zero =>
    intro items s caps h
    exact Option.noConfusion h
  | succ fuel ih =>
    intro items s caps h
    cases items with
    | nil =>
      have hcaps : (some [] : Option (List (List Char))) = some caps := h
      injection hcaps with h2
      rw [← h2]
      simp [captureCount]
    | cons it rest =>
      rw [runItems] at h
      obtain ⟨n, _, hf⟩ := tryLens_some _ _ _ h
      cases hr : runItems fuel rest (s.drop n) with
      | none => rw [hr] at hf; simp at hf
      | some caps0 =>
        rw [hr] at hf
        have hlen := ih rest (s.drop n) caps0 hr
        rw [captureCount_cons]
        cases hc : it.isCapture with
        | true =>
          simp [hc] at hf
          rw [← hf]
          simp
          omega
        | false =>
          simp [hc] at hf
          rw [← hf]
          simpa using hlen

/-- `searchItems` inherits the capture-count property of `runItems`. -/
theorem searchItems_length (items : List Item) :
    ∀ (s : List Char) (caps : List (List Char)),
      searchItems items s = some caps → caps.length = captureCount items := by
  intro s
  induction s with
  | nil =>
    intro caps h
    rw [searchItems] at h
    exact runItems_length _ _ _ _ h
  | cons c t ih =>
    intro caps h
    rw [searchItems] at h
    cases hr : runItems (items.length + 1) items (c :: t) with
    | some caps2 =>
      rw [hr] at h
      simp at h
      rw [← h]
      exact runItems_length _ _ _ _ hr
    | none =>
      rw [hr] at h
      exact ih _ h

/-- A successful cast application yields one value per captured group. -/
theorem applyCasts_length (gs : List (List Char)) :
    ∀ (cs : List Cast) (vs : List PyVal),
      applyCasts cs gs = .ok vs → vs.length = gs.length := by
  induction gs with
  | nil =>
    intro cs vs h
    cases cs <;> simp [applyCasts] at h <;> simp [← h]
  | cons g gs ih =>
    intro cs vs h
    cases cs with
    | nil => simp [applyCasts] at h
    | cons c cs =>
      rw [applyCasts] at h
      cases h1 : applyCast c g with
      | error e => rw [h1] at h; simp at h
      | ok v =>
        rw [h1] at h
        cases h2 : applyCasts cs gs with
        | error e => rw [h2] at h; simp at h
        | ok vs0 =>
          rw [h2] at h
          simp at h
          rw [← h]
          simp [ih _ _ h2]

/-- Any tuple `scanf` returns has exactly one element per capturing
(non-discard) token of the compiled format. -/
theorem scanf_result_length (fmt line : String) (res : List PyVal)
    (h : scanf fmt line = .ok (some res)) :
    res.length = captureCount (scanf_compile fmt).1 := by
  simp only [scanf] at h
  cases hs : searchItems (scanf_compile fmt).1 line.toList with
  | none => rw [hs] at h; simp at h
  | some groups =>
    rw [hs] at h
    dsimp only at h
    cases ha : applyCasts (scanf_compile fmt).2 groups with
    | error e => rw [ha] at h; simp at h
    | ok vals =>
      rw [ha] at h
      simp at h
      rw [← h, applyCasts_length _ _ _ ha]
      exact searchItems_length _ _ _ hs

/-- A line the compiled pattern does not match anywhere produces the
"no match" outcome (`None`), not an exception. -/
theorem scanf_no_match (fmt line : String)
    (h : searchItems (scanf_compile fmt).1 line.toList = none) :
    scanf fmt line = .ok none := by
  simp only [scanf]
  rw [h]

end Scanf

/-! ### Correctness of the binary64 model

The executable model above is verified against exact rational-number
semantics: a pair `(M, E)` has value `M * 2^E : ℚ`.  The development
culminates in `mathCeilFloatDiv_exact`: for `0 ≤ a < 2^53` and
`0 < b < 2^53` the float computation returns exactly `⌈a / b⌉` — the
conversions are exact and, by a half-ulp argument, the correctly rounded
quotient of two such doubles never crosses an integer. -/

theorem natBits_zero (fuel : Nat) : natBits fuel 0 = 0 := by
  cases fuel <;> simp [natBits]

theorem natBits_spec (fuel : Nat) :
    ∀ n : Nat, n < 2^fuel →
      n < 2^(natBits fuel n) ∧ (1 ≤ n → 2^(natBits fuel n) ≤ 2 * n) := by
  induction fuel with
  | zero =>
    intro n h
    rw [pow_zero] at h
    have hn : n = 0 := by omega
    subst hn
    rw [natBits_zero]
    exact ⟨by norm_num, by omega⟩
  | succ fuel ih =>
    intro n h
    by_cases hn : n = 0
    · subst hn
      rw [natBits_zero]
      exact ⟨by norm_num, by omega⟩
    · rw [natBits, if_neg hn]
      have hpow : 2^(fuel + 1) = 2^fuel * 2 := pow_succ 2 fuel
      have hhalf : n / 2 < 2^fuel := by omega
      obtain ⟨ih1, ih2⟩ := ih (n / 2) hhalf
      have hpow2 : 2^(natBits fuel (n / 2) + 1) = 2^(natBits fuel (n / 2)) * 2 :=
        pow_succ 2 (natBits fuel (n / 2))
      by_cases h1 : n / 2 = 0
      · have hn1 : n = 1 := by omega
        subst hn1
        rw [h1, natBits_zero]
        norm_num
      · have h2 := ih2 (by omega)
        constructor
        · omega
        · intro
          omega

theorem rheNatDiv_exact (N D : Nat) (hD : 0 < D) (h : D ∣ N) :
    rheNatDiv N D = N / D ∧ ((N / D : Nat) : ℚ) = (N : ℚ) / (D : ℚ) := by
  obtain ⟨c, rfl⟩ := h
  have hr : D * c % D = 0 := Nat.mul_mod_right D c
  have hq : D * c / D = c := Nat.mul_div_cancel_left c hD
  constructor
  · simp [rheNatDiv, hr, hD]
  · rw [hq, eq_div_iff (by positivity : ((D:ℚ)) ≠ 0)]
    push_cast
    ring

theorem rheNatDiv_dist (N D : Nat) (hD : 0 < D) :
    |((rheNatDiv N D : Nat) : ℚ) - (N : ℚ) / (D : ℚ)| ≤ 1/2 := by
  have hdm := Nat.div_add_mod N D
  have hmod : N % D < D := Nat.mod_lt _ hD
  have hDQ : (0:ℚ) < (D:ℚ) := by exact_mod_cast hD
  have hdmQ : ((D:ℚ)) * ((N / D : Nat) : ℚ) + ((N % D : Nat) : ℚ) = (N:ℚ) := by
    exact_mod_cast hdm
  have hsplit : (N:ℚ)/(D:ℚ) = ((N / D : Nat) : ℚ) + ((N % D : Nat) : ℚ)/(D:ℚ) := by
    field_simp
    linarith [hdmQ]
  have hr0 : (0:ℚ) ≤ ((N % D : Nat) : ℚ)/(D:ℚ) := by positivity
  have hr1 : ((N % D : Nat) : ℚ)/(D:ℚ) < 1 := (div_lt_one hDQ).mpr (by exact_mod_cast hmod)
  simp only [rheNatDiv]
  split_ifs with h1 h2 h3
  · have h1Q : 2 * ((N % D : Nat) : ℚ) < (D:ℚ) := by exact_mod_cast h1
    have hlt : ((N % D : Nat) : ℚ)/(D:ℚ) < 1/2 := by
      rw [div_lt_iff₀ hDQ]
      linarith
    rw [abs_le]
    constructor <;> linarith [hsplit]
  · have h2Q : (D:ℚ) < 2 * ((N % D : Nat) : ℚ) := by exact_mod_cast h2
    have hge : 1/2 ≤ ((N % D : Nat) : ℚ)/(D:ℚ) := by
      rw [le_div_iff₀ hDQ]
      linarith
    rw [abs_le]
    push_cast
    constructor <;> linarith [hsplit, hr1]
  · have heq : 2 * (N % D) = D := by omega
    have heqQ : 2 * ((N % D : Nat) : ℚ) = (D:ℚ) := by exact_mod_cast heq
    have hhalf : ((N % D : Nat) : ℚ)/(D:ℚ) = 1/2 := by
      rw [div_eq_iff (ne_of_gt hDQ)]
      linarith
    rw [abs_le]
    constructor <;> linarith [hsplit]
  · have heq : 2 * (N % D) = D := by omega
    have heqQ : 2 * ((N % D : Nat) : ℚ) = (D:ℚ) := by exact_mod_cast heq
    have hhalf : ((N % D : Nat) : ℚ)/(D:ℚ) = 1/2 := by
      rw [div_eq_iff (ne_of_gt hDQ)]
      linarith
    rw [abs_le]
    push_cast
    constructor <;> linarith [hsplit]

theorem zpow_toNat_eq (s : Int) (hs : 0 ≤ s) : (2:ℚ)^s = (2:ℚ)^(s.toNat) := by
  rw [← zpow_natCast (2:ℚ) s.toNat, Int.toNat_of_nonneg hs]

theorem zpow_neg_toNat_eq (s : Int) (hs : s ≤ 0) :
    (2:ℚ)^s = ((2:ℚ)^((-s).toNat))⁻¹ := by
  rw [← zpow_natCast (2:ℚ) ((-s).toNat), Int.toNat_of_nonneg (by omega : (0:ℤ) ≤ -s),
    ← zpow_neg, neg_neg]

theorem rheScaled_val_nonneg (num den : Nat) (s : Int) (hs : 0 ≤ s) :
    ((num * 2^s.toNat : Nat) : ℚ) / (den : ℚ) = (num:ℚ)/(den:ℚ) * (2:ℚ)^s := by
  rw [zpow_toNat_eq s hs]
  push_cast
  ring

theorem rheScaled_val_neg (num den : Nat) (s : Int) (hs : ¬ 0 ≤ s) (hd : 0 < den) :
    (num : ℚ) / ((den * 2^(-s).toNat : Nat) : ℚ) = (num:ℚ)/(den:ℚ) * (2:ℚ)^s := by
  rw [zpow_neg_toNat_eq s (by omega)]
  have hdQ : ((den:ℚ)) ≠ 0 := by positivity
  have hpQ : ((2:ℚ)^((-s).toNat)) ≠ 0 := by positivity
  push_cast
  field_simp

theorem rheScaled_dist (num den : Nat) (s : Int) (hden : 0 < den) :
    |((rheScaled num den s : Nat) : ℚ) - (num:ℚ)/(den:ℚ) * (2:ℚ)^s| ≤ 1/2 := by
  unfold rheScaled
  split_ifs with hs
  · rw [← rheScaled_val_nonneg num den s hs]
    exact rheNatDiv_dist _ _ hden
  · rw [← rheScaled_val_neg num den s hs hden]
    exact rheNatDiv_dist _ _ (by positivity)

theorem rheScaled_exact_nonneg (num den : Nat) (s : Int) (hden : 0 < den) (hs : 0 ≤ s)
    (h : den ∣ num) :
    ((rheScaled num den s : Nat) : ℚ) = (num:ℚ)/(den:ℚ) * (2:ℚ)^s := by
  unfold rheScaled
  rw [if_pos hs]
  have hdvd : den ∣ num * 2^s.toNat := h.mul_right _
  obtain ⟨h1, h2⟩ := rheNatDiv_exact (num * 2^s.toNat) den hden hdvd
  rw [h1, h2, rheScaled_val_nonneg num den s hs]

theorem le2pow_iff (k : Int) (num den : Nat) (hd : 0 < den) :
    le2pow k num den = true ↔ (2:ℚ)^k ≤ (num:ℚ)/(den:ℚ) := by
  have hdQ : (0:ℚ) < (den:ℚ) := by exact_mod_cast hd
  unfold le2pow
  rw [le_div_iff₀ hdQ]
  split_ifs with hk
  · rw [decide_eq_true_eq]
    have hcast : (2:ℚ)^k * (den:ℚ) = ((den * 2^k.toNat : Nat) : ℚ) := by
      rw [zpow_toNat_eq k hk]
      push_cast
      ring
    rw [hcast, Nat.cast_le]
  · rw [decide_eq_true_eq]
    have hpQ : (0:ℚ) < ((2:ℚ)^((-k).toNat)) := by positivity
    rw [zpow_neg_toNat_eq k (by omega), inv_mul_eq_div, div_le_iff₀ hpQ]
    constructor
    · intro h
      have hc : ((den : Nat) : ℚ) ≤ ((num * 2^(-k).toNat : Nat) : ℚ) := by exact_mod_cast h
      push_cast at hc
      linarith
    · intro h
      have hc : ((den : Nat) : ℚ) ≤ ((num * 2^(-k).toNat : Nat) : ℚ) := by
        push_cast
        linarith
      exact_mod_cast hc

theorem ratLog2_spec (num den : Nat) (hn : 0 < num) (hd : 0 < den)
    (hnum : num < 2^natBitsFuel) (hden : den < 2^natBitsFuel) :
    (2:ℚ)^(ratLog2 num den) ≤ (num:ℚ)/(den:ℚ) ∧
      (num:ℚ)/(den:ℚ) < (2:ℚ)^(ratLog2 num den + 1) := by
  obtain ⟨hn1, hn2⟩ := natBits_spec natBitsFuel num hnum
  obtain ⟨hd1, hd2⟩ := natBits_spec natBitsFuel den hden
  have hn2' := hn2 hn
  have hd2' := hd2 hd
  clear hn2 hd2 hnum hden
  have hdQ : (0:ℚ) < (den:ℚ) := by exact_mod_cast hd
  have hnQ : (0:ℚ) < (num:ℚ) := by exact_mod_cast hn
  have hA : (num:ℚ) < (2:ℚ)^((natBits natBitsFuel num : Nat) : Int) := by
    rw [zpow_natCast]
    exact_mod_cast hn1
  have hB : (2:ℚ)^((natBits natBitsFuel num : Nat) : Int) ≤ 2 * (num:ℚ) := by
    rw [zpow_natCast]
    exact_mod_cast hn2'
  have hC : (den:ℚ) < (2:ℚ)^((natBits natBitsFuel den : Nat) : Int) := by
    rw [zpow_natCast]
    exact_mod_cast hd1
  have hD : (2:ℚ)^((natBits natBitsFuel den : Nat) : Int) ≤ 2 * (den:ℚ) := by
    rw [zpow_natCast]
    exact_mod_cast hd2'
  clear hn1 hd1 hn2' hd2'
  set B : Int := ((natBits natBitsFuel num : Nat) : Int) with hBdef
  set D : Int := ((natBits natBitsFuel den : Nat) : Int) with hDdef
  have hPpos : (0:ℚ) < (2:ℚ)^B := zpow_pos (by norm_num) B
  have hQpos : (0:ℚ) < (2:ℚ)^D := zpow_pos (by norm_num) D
  have hupper : (num:ℚ)/(den:ℚ) < (2:ℚ)^(B - D + 1) := by
    rw [div_lt_iff₀ hdQ]
    have hexp : (2:ℚ)^(B - D + 1) * (den:ℚ) = (2:ℚ)^B * (2 * (den:ℚ)) / (2:ℚ)^D := by
      rw [show B - D + 1 = B + 1 - D by ring, zpow_sub₀ (by norm_num : (2:ℚ) ≠ 0),
        zpow_add₀ (by norm_num : (2:ℚ) ≠ 0), zpow_one]
      ring
    rw [hexp, lt_div_iff₀ hQpos]
    nlinarith [mul_lt_mul_of_pos_right hA hQpos,
      mul_le_mul_of_nonneg_left hD (le_of_lt hPpos)]
  have hlower : (2:ℚ)^(B - D - 1) < (num:ℚ)/(den:ℚ) := by
    rw [lt_div_iff₀ hdQ]
    have hexp : (2:ℚ)^(B - D - 1) * (den:ℚ) = (2:ℚ)^B * (den:ℚ) / ((2:ℚ)^D * 2) := by
      rw [show B - D - 1 = B - (D + 1) by ring, zpow_sub₀ (by norm_num : (2:ℚ) ≠ 0),
        zpow_add₀ (by norm_num : (2:ℚ) ≠ 0), zpow_one]
      ring
    rw [hexp, div_lt_iff₀ (by positivity)]
    nlinarith [mul_le_mul_of_nonneg_right hB (le_of_lt hdQ),
      mul_lt_mul_of_pos_left hC hnQ]
  simp only [ratLog2]
  split_ifs with hle
  · exact ⟨(le2pow_iff _ _ _ hd).mp hle, hupper⟩
  · have hnotle : (num:ℚ)/(den:ℚ) < (2:ℚ)^(B - D) :=
      not_le.mp (fun hcon => hle ((le2pow_iff _ _ _ hd).mpr hcon))
    constructor
    · exact le_of_lt hlower
    · rw [sub_add_cancel]
      exact hnotle



theorem roundPosRat_ok (num den : Nat) (hn : 0 < num) (hd : 0 < den)
    (hnum : num < 2^natBitsFuel) (hden : den < 2^natBitsFuel)
    (hlo : (2:ℚ)^(-53 : ℤ) ≤ (num:ℚ)/(den:ℚ)) (hhi : (num:ℚ)/(den:ℚ) < (2:ℚ)^(53:ℤ)) :
    roundPosRat num den =
        .ok (rheScaled num den (52 - ratLog2 num den), ratLog2 num den - 52) ∧
      -53 ≤ ratLog2 num den ∧ ratLog2 num den ≤ 52 := by
  obtain ⟨hk1, hk2⟩ := ratLog2_spec num den hn hd hnum hden
  have hkle : ratLog2 num den ≤ 52 := by
    have h1 : (2:ℚ)^(ratLog2 num den) < (2:ℚ)^(53:ℤ) := lt_of_le_of_lt hk1 hhi
    have h2 : ratLog2 num den < 53 := (zpow_lt_zpow_iff_right₀ (by norm_num)).mp h1
    omega
  have hkge : -53 ≤ ratLog2 num den := by
    have h1 : (2:ℚ)^(-53:ℤ) < (2:ℚ)^(ratLog2 num den + 1) := lt_of_le_of_lt hlo hk2
    have h2 : -53 < ratLog2 num den + 1 := (zpow_lt_zpow_iff_right₀ (by norm_num)).mp h1
    omega
  refine ⟨?_, hkge, hkle⟩
  simp only [roundPosRat]
  rw [if_neg (by omega : ¬ num = 0), if_neg (by omega : ¬ ratLog2 num den < -1022),
    if_neg ?_]
  push_neg
  exact ⟨by omega, fun h => absurd h (by omega)⟩

theorem pyFloatNat_spec (n : Nat) (h1 : 0 < n) (h : n < 2^53) :
    ∃ M E, pyFloatNat n = .ok (M, E) ∧ ((M:ℚ)) * (2:ℚ)^E = (n:ℚ) ∧
      -52 ≤ E ∧ E ≤ 0 ∧ 0 < M ∧ M < 2^105 := by
  have hfuel : (2:Nat)^53 < 2^natBitsFuel := by
    apply Nat.pow_lt_pow_right (by norm_num)
    norm_num [natBitsFuel]
  have hguard : ¬ (TWO_POW_1024 ≤ n) := by
    have he : TWO_POW_1024 = 2^1024 := by norm_num [TWO_POW_1024]
    have h2 : (2:Nat)^53 ≤ 2^1024 := Nat.pow_le_pow_right (by norm_num) (by norm_num)
    omega
  have hdiv1 : ((n:ℚ))/((1:Nat):ℚ) = (n:ℚ) := by norm_num
  have hlo : (2:ℚ)^(-53 : ℤ) ≤ (n:ℚ)/((1:Nat):ℚ) := by
    rw [hdiv1]
    have hn1 : (1:ℚ) ≤ (n:ℚ) := by exact_mod_cast h1
    have hle1 : (2:ℚ)^(-53 : ℤ) ≤ (2:ℚ)^(0:ℤ) :=
      zpow_le_zpow_right₀ (by norm_num) (by norm_num)
    rw [zpow_zero] at hle1
    linarith
  have hpow53 : ((2^53 : Nat) : ℚ) = (2:ℚ)^(53:ℤ) := by
    norm_num
  have hhi : (n:ℚ)/((1:Nat):ℚ) < (2:ℚ)^(53:ℤ) := by
    rw [hdiv1, ← hpow53]
    exact_mod_cast h
  obtain ⟨hok, hge, hle⟩ := roundPosRat_ok n 1 h1 (by norm_num) (by omega)
    (by norm_num [natBitsFuel]) hlo hhi
  set k := ratLog2 n 1 with hkdef
  have hk0 : 0 ≤ k := by
    obtain ⟨hs1, hs2⟩ := ratLog2_spec n 1 h1 (by norm_num) (by omega) (by norm_num [natBitsFuel])
    have hn1 : (1:ℚ) ≤ (n:ℚ)/((1:Nat):ℚ) := by
      rw [hdiv1]
      exact_mod_cast h1
    have h2 : (2:ℚ)^((0:ℤ)) ≤ (n:ℚ)/((1:Nat):ℚ) := by
      rw [zpow_zero]
      exact hn1
    have h3 : (2:ℚ)^((0:ℤ)) < (2:ℚ)^(k + 1) := lt_of_le_of_lt h2 hs2
    have h4 : (0:ℤ) < k + 1 := (zpow_lt_zpow_iff_right₀ (by norm_num)).mp h3
    omega
  have hMval : ((rheScaled n 1 (52 - k) : Nat) : ℚ) = (n:ℚ) * (2:ℚ)^(52 - k) := by
    have := rheScaled_exact_nonneg n 1 (52 - k) (by norm_num) (by omega) (one_dvd n)
    rw [this, hdiv1]
  refine ⟨rheScaled n 1 (52 - k), k - 52, ?_, ?_, by omega, by omega, ?_, ?_⟩
  · unfold pyFloatNat
    rw [if_neg hguard]
    exact hok
  · rw [hMval]
    have hcancel : (2:ℚ)^(52 - k) * (2:ℚ)^(k - 52) = 1 := by
      rw [← zpow_add₀ (by norm_num : (2:ℚ) ≠ 0)]
      norm_num
    calc (n:ℚ) * (2:ℚ)^(52 - k) * (2:ℚ)^(k - 52)
        = (n:ℚ) * ((2:ℚ)^(52 - k) * (2:ℚ)^(k - 52)) := by ring
      _ = (n:ℚ) := by rw [hcancel]; ring
  · -- 0 < M
    by_contra hM
    push_neg at hM
    have hM0 : rheScaled n 1 (52 - k) = 0 := Nat.le_zero.mp hM
    rw [hM0] at hMval
    simp only [Nat.cast_zero] at hMval
    have hpos : (0:ℚ) < (n:ℚ) * (2:ℚ)^(52 - k) := by positivity
    rw [← hMval] at hpos
    exact lt_irrefl _ hpos
  · -- M < 2^105
    have hMQ : ((rheScaled n 1 (52 - k) : Nat) : ℚ) < ((2^105 : Nat) : ℚ) := by
      rw [hMval]
      have hnQ : (n:ℚ) < (2:ℚ)^(53:ℤ) := by rw [← hdiv1]; exact hhi
      have hpow : (2:ℚ)^(52 - k) ≤ (2:ℚ)^(52:ℤ) := by
        apply zpow_le_zpow_right₀ (by norm_num)
        omega
      have hcast : ((2^105 : Nat) : ℚ) = (2:ℚ)^(105:ℤ) := by
        norm_num
      rw [hcast]
      have hsum : (2:ℚ)^(53:ℤ) * (2:ℚ)^(52:ℤ) = (2:ℚ)^(105:ℤ) := by
        rw [← zpow_add₀ (by norm_num : (2:ℚ) ≠ 0)]
        norm_num
      calc (n:ℚ) * (2:ℚ)^(52 - k) ≤ (n:ℚ) * (2:ℚ)^(52:ℤ) := by
            apply mul_le_mul_of_nonneg_left hpow (by positivity)
        _ < (2:ℚ)^(53:ℤ) * (2:ℚ)^(52:ℤ) := by
            apply mul_lt_mul_of_pos_right hnQ (zpow_pos (by norm_num) _)
        _ = (2:ℚ)^(105:ℤ) := hsum
    exact_mod_cast hMQ

theorem ceilDyadic_eq (M : Nat) (E : Int) :
    ceilDyadic (M, E) = ⌈(M:ℚ) * (2:ℚ)^E⌉ := by
  unfold ceilDyadic
  split_ifs with hE
  · have hval : (M:ℚ) * (2:ℚ)^E = ((M * 2^E.toNat : Nat) : ℚ) := by
      rw [zpow_toNat_eq E hE]
      push_cast
      ring
    rw [hval, Int.ceil_natCast]
    push_cast
    ring
  · rw [ceilDivInt_eq _ _ (by positivity : (0:Int) < 2^(-E).toNat)]
    congr 1
    rw [zpow_neg_toNat_eq E (by omega)]
    push_cast
    ring



theorem pow105_lt_fuel : (2:Nat)^105 < 2^natBitsFuel :=
  Nat.pow_lt_pow_right (by norm_num) (by norm_num [natBitsFuel])

theorem mulPowLtFuel (Ma t : Nat) (hMa : Ma < 2^105) (ht : t ≤ 52) :
    Ma * 2^t < 2^natBitsFuel := by
  have h1 : (2:Nat)^t ≤ 2^52 := Nat.pow_le_pow_right (by norm_num) ht
  calc Ma * 2^t < 2^105 * 2^t := mul_lt_mul_of_pos_right hMa (pow_pos (by norm_num) t)
    _ ≤ 2^105 * 2^52 := Nat.mul_le_mul le_rfl h1
    _ < 2^natBitsFuel := by
        rw [← pow_add]
        exact Nat.pow_lt_pow_right (by norm_num) (by norm_num [natBitsFuel])

theorem roundPosRat_ceil (N D a b : Nat) (hN : 0 < N) (hD : 0 < D)
    (hNf : N < 2^natBitsFuel) (hDf : D < 2^natBitsFuel)
    (ha : 0 < a) (hb : 0 < b) (ha53 : a < 2^53) (hb53 : b < 2^53)
    (hval : (N:ℚ)/(D:ℚ) = (a:ℚ)/(b:ℚ)) :
    ∃ M E, roundPosRat N D = .ok (M, E) ∧
      ⌈(M:ℚ) * (2:ℚ)^E⌉ = ⌈(a:ℚ)/(b:ℚ)⌉ := by
  have hbQ : (0:ℚ) < (b:ℚ) := by exact_mod_cast hb
  have haQ : (0:ℚ) < (a:ℚ) := by exact_mod_cast ha
  have h2_53 : ((2^53 : Nat) : ℚ) = (2:ℚ)^(53:ℤ) := by norm_num
  have hq_lo : (2:ℚ)^(-53 : ℤ) ≤ (a:ℚ)/(b:ℚ) := by
    rw [le_div_iff₀ hbQ]
    have h1 : (b:ℚ) < (2:ℚ)^(53:ℤ) := by rw [← h2_53]; exact_mod_cast hb53
    have h2 : (2:ℚ)^(-53:ℤ) * (2:ℚ)^(53:ℤ) = 1 := by
      rw [← zpow_add₀ (by norm_num : (2:ℚ) ≠ 0)]
      norm_num
    have hp : (0:ℚ) < (2:ℚ)^(-53:ℤ) := zpow_pos (by norm_num) _
    have h1Q : (1:ℚ) ≤ (a:ℚ) := by exact_mod_cast ha
    clear hNf hDf
    nlinarith
  have hq_hi : (a:ℚ)/(b:ℚ) < (2:ℚ)^(53:ℤ) := by
    rw [div_lt_iff₀ hbQ]
    have h1 : (a:ℚ) < (2:ℚ)^(53:ℤ) := by rw [← h2_53]; exact_mod_cast ha53
    have h1b : (1:ℚ) ≤ (b:ℚ) := by exact_mod_cast hb
    have hp : (0:ℚ) < (2:ℚ)^(53:ℤ) := zpow_pos (by norm_num) _
    clear hNf hDf
    nlinarith
  obtain ⟨hok, hge, hle⟩ := roundPosRat_ok N D hN hD hNf hDf
    (by rw [hval]; exact hq_lo) (by rw [hval]; exact hq_hi)
  obtain ⟨hk1, hk2⟩ := ratLog2_spec N D hN hD hNf hDf
  rw [hval] at hk1 hk2
  refine ⟨rheScaled N D (52 - ratLog2 N D), ratLog2 N D - 52, hok, ?_⟩
  have hcancel : (2:ℚ)^(52 - ratLog2 N D) * (2:ℚ)^(ratLog2 N D - 52) = 1 := by
    rw [← zpow_add₀ (by norm_num : (2:ℚ) ≠ 0)]
    norm_num
  by_cases hdvd : b ∣ a
  · -- the quotient is an integer: the rounding is exact and the value survives
    obtain ⟨c, rfl⟩ := hdvd
    have hbne : ((b:ℚ)) ≠ 0 := ne_of_gt hbQ
    have hc : ((b * c : Nat):ℚ)/(b:ℚ) = (c:ℚ) := by
      push_cast
      field_simp
    have hND : (N:ℚ) = ((D * c : Nat):ℚ) := by
      have h1 := hval
      rw [hc, div_eq_iff (by positivity : ((D:ℚ)) ≠ 0)] at h1
      push_cast
      linarith [h1]
    have hNDnat : N = D * c := by exact_mod_cast hND
    have hexact := rheScaled_exact_nonneg N D (52 - ratLog2 N D) hD (by omega) ⟨c, hNDnat⟩
    rw [hexact, hval]
    have hcl : ((b*c : Nat):ℚ)/(b:ℚ) * (2:ℚ)^(52 - ratLog2 N D) * (2:ℚ)^(ratLog2 N D - 52)
        = ((b*c : Nat):ℚ)/(b:ℚ) := by
      rw [mul_assoc, hcancel, mul_one]
    rw [hcl]
  · -- the quotient is not an integer: the rounding error, at most a half ulp,
    -- is smaller than the distance from the quotient to any integer
    have hbdvd' : ¬ ((b:ℤ) ∣ (a:ℤ)) := fun hcon => hdvd (by exact_mod_cast hcon)
    have hqb : (a:ℚ)/(b:ℚ) * (b:ℚ) = (a:ℚ) := div_mul_cancel₀ _ (ne_of_gt hbQ)
    have hqm : (a:ℚ)/(b:ℚ) ≤ ((⌈(a:ℚ)/(b:ℚ)⌉:ℤ):ℚ) := Int.le_ceil _
    have hAm : (a:ℤ) + 1 ≤ ⌈(a:ℚ)/(b:ℚ)⌉ * (b:ℤ) := by
      have h1 : (a:ℚ) ≤ ((⌈(a:ℚ)/(b:ℚ)⌉:ℤ):ℚ) * (b:ℚ) := by
        calc (a:ℚ) = (a:ℚ)/(b:ℚ) * (b:ℚ) := hqb.symm
          _ ≤ ((⌈(a:ℚ)/(b:ℚ)⌉:ℤ):ℚ) * (b:ℚ) := mul_le_mul_of_nonneg_right hqm (le_of_lt hbQ)
      have h2 : (a:ℤ) ≤ ⌈(a:ℚ)/(b:ℚ)⌉ * (b:ℤ) := by exact_mod_cast h1
      have h3 : (a:ℤ) ≠ ⌈(a:ℚ)/(b:ℚ)⌉ * (b:ℤ) := by
        intro hcon
        exact hbdvd' ⟨⌈(a:ℚ)/(b:ℚ)⌉, by rw [hcon]; ring⟩
      exact Int.add_one_le_iff.mpr (lt_of_le_of_ne h2 h3)
    have hBm : (⌈(a:ℚ)/(b:ℚ)⌉ - 1) * (b:ℤ) + 1 ≤ (a:ℤ) := by
      have hmq : ((⌈(a:ℚ)/(b:ℚ)⌉:ℤ):ℚ) - 1 < (a:ℚ)/(b:ℚ) := by
        have := Int.ceil_lt_add_one ((a:ℚ)/(b:ℚ))
        linarith
      have h1 : (((⌈(a:ℚ)/(b:ℚ)⌉:ℤ):ℚ) - 1) * (b:ℚ) < (a:ℚ) := by
        calc (((⌈(a:ℚ)/(b:ℚ)⌉:ℤ):ℚ) - 1) * (b:ℚ) < (a:ℚ)/(b:ℚ) * (b:ℚ) :=
              mul_lt_mul_of_pos_right hmq hbQ
          _ = (a:ℚ) := hqb
      have h2 : (⌈(a:ℚ)/(b:ℚ)⌉ - 1) * (b:ℤ) < (a:ℤ) := by exact_mod_cast h1
      exact Int.add_one_le_iff.mpr h2
    have hgap : (b:ℚ) * (2:ℚ)^(ratLog2 N D - 53) < 1 := by
      have h1 : (2:ℚ)^(ratLog2 N D) * (b:ℚ) ≤ (a:ℚ) := by
        rw [le_div_iff₀ hbQ] at hk1
        exact hk1
      have h2 : (a:ℚ) < (2:ℚ)^(53:ℤ) := by rw [← h2_53]; exact_mod_cast ha53
      have hp : (0:ℚ) < (2:ℚ)^(-53:ℤ) := zpow_pos (by norm_num) _
      have hc53 : (2:ℚ)^(53:ℤ) * (2:ℚ)^(-53:ℤ) = 1 := by
        rw [← zpow_add₀ (by norm_num : (2:ℚ) ≠ 0)]
        norm_num
      have hsplit : (2:ℚ)^(ratLog2 N D - 53) = (2:ℚ)^(ratLog2 N D) * (2:ℚ)^(-53:ℤ) := by
        rw [show ratLog2 N D - 53 = ratLog2 N D + (-53) from by ring,
          zpow_add₀ (by norm_num : (2:ℚ) ≠ 0)]
      calc (b:ℚ) * (2:ℚ)^(ratLog2 N D - 53)
          = ((2:ℚ)^(ratLog2 N D) * (b:ℚ)) * (2:ℚ)^(-53:ℤ) := by rw [hsplit]; ring
        _ ≤ (a:ℚ) * (2:ℚ)^(-53:ℤ) := mul_le_mul_of_nonneg_right h1 (le_of_lt hp)
        _ < (2:ℚ)^(53:ℤ) * (2:ℚ)^(-53:ℤ) := mul_lt_mul_of_pos_right h2 hp
        _ = 1 := hc53
    have hdist : |((rheScaled N D (52 - ratLog2 N D) : Nat):ℚ) * (2:ℚ)^(ratLog2 N D - 52)
        - (a:ℚ)/(b:ℚ)| ≤ (2:ℚ)^(ratLog2 N D - 53) := by
      have h1 := rheScaled_dist N D (52 - ratLog2 N D) hD
      rw [hval] at h1
      have hpos : (0:ℚ) < (2:ℚ)^(ratLog2 N D - 52) := zpow_pos (by norm_num) _
      have hexp : (1/2 : ℚ) * (2:ℚ)^(ratLog2 N D - 52) = (2:ℚ)^(ratLog2 N D - 53) := by
        rw [show ratLog2 N D - 53 = (ratLog2 N D - 52) + (-1) from by ring,
          zpow_add₀ (by norm_num : (2:ℚ) ≠ 0),
          show (2:ℚ)^(-1:ℤ) = 1/2 from by norm_num]
        ring
      calc |((rheScaled N D (52 - ratLog2 N D) : Nat):ℚ) * (2:ℚ)^(ratLog2 N D - 52) - (a:ℚ)/(b:ℚ)|
          = |(((rheScaled N D (52 - ratLog2 N D) : Nat):ℚ)
              - (a:ℚ)/(b:ℚ) * (2:ℚ)^(52 - ratLog2 N D)) * (2:ℚ)^(ratLog2 N D - 52)| := by
            congr 1
            have hx : (((rheScaled N D (52 - ratLog2 N D) : Nat):ℚ)
                - (a:ℚ)/(b:ℚ) * (2:ℚ)^(52 - ratLog2 N D)) * (2:ℚ)^(ratLog2 N D - 52)
                = ((rheScaled N D (52 - ratLog2 N D) : Nat):ℚ) * (2:ℚ)^(ratLog2 N D - 52)
                  - (a:ℚ)/(b:ℚ) * ((2:ℚ)^(52 - ratLog2 N D) * (2:ℚ)^(ratLog2 N D - 52)) := by
              ring
            rw [hx, hcancel, mul_one]
        _ = |((rheScaled N D (52 - ratLog2 N D) : Nat):ℚ)
              - (a:ℚ)/(b:ℚ) * (2:ℚ)^(52 - ratLog2 N D)| * |(2:ℚ)^(ratLog2 N D - 52)| :=
            abs_mul _ _
        _ = |((rheScaled N D (52 - ratLog2 N D) : Nat):ℚ)
              - (a:ℚ)/(b:ℚ) * (2:ℚ)^(52 - ratLog2 N D)| * (2:ℚ)^(ratLog2 N D - 52) := by
            rw [abs_of_pos hpos]
        _ ≤ (1/2) * (2:ℚ)^(ratLog2 N D - 52) :=
            mul_le_mul_of_nonneg_right h1 (le_of_lt hpos)
        _ = (2:ℚ)^(ratLog2 N D - 53) := hexp
    have habs := abs_le.mp hdist
    have hupQ : (a:ℚ) + 1 ≤ ((⌈(a:ℚ)/(b:ℚ)⌉:ℤ):ℚ) * (b:ℚ) := by exact_mod_cast hAm
    have hdnQ : (((⌈(a:ℚ)/(b:ℚ)⌉:ℤ):ℚ) - 1) * (b:ℚ) + 1 ≤ (a:ℚ) := by exact_mod_cast hBm
    have hub : ((rheScaled N D (52 - ratLog2 N D) : Nat):ℚ) * (2:ℚ)^(ratLog2 N D - 52) * (b:ℚ)
        < ((⌈(a:ℚ)/(b:ℚ)⌉:ℤ):ℚ) * (b:ℚ) := by
      have h1 : (((rheScaled N D (52 - ratLog2 N D) : Nat):ℚ) * (2:ℚ)^(ratLog2 N D - 52)
            - (a:ℚ)/(b:ℚ)) * (b:ℚ) ≤ (2:ℚ)^(ratLog2 N D - 53) * (b:ℚ) :=
        mul_le_mul_of_nonneg_right habs.2 (le_of_lt hbQ)
      clear hNf hDf
      nlinarith [hqb, hgap, hupQ, h1]
    have hlb : (((⌈(a:ℚ)/(b:ℚ)⌉:ℤ):ℚ) - 1) * (b:ℚ)
        < ((rheScaled N D (52 - ratLog2 N D) : Nat):ℚ) * (2:ℚ)^(ratLog2 N D - 52) * (b:ℚ) := by
      have h1 : (-(2:ℚ)^(ratLog2 N D - 53)) * (b:ℚ)
          ≤ (((rheScaled N D (52 - ratLog2 N D) : Nat):ℚ) * (2:ℚ)^(ratLog2 N D - 52)
            - (a:ℚ)/(b:ℚ)) * (b:ℚ) :=
        mul_le_mul_of_nonneg_right habs.1 (le_of_lt hbQ)
      clear hNf hDf
      nlinarith [hqb, hgap, hdnQ, h1]
    rw [Int.ceil_eq_iff]
    constructor
    · exact lt_of_mul_lt_mul_right hlb (le_of_lt hbQ)
    · exact le_of_lt (lt_of_mul_lt_mul_right hub (le_of_lt hbQ))

theorem roundPosRat_zero (den : Nat) : roundPosRat 0 den = .ok (0, 0) := by
  unfold roundPosRat
  rw [if_pos rfl]

theorem floatDiv_zero (y : Nat × Int) : floatDiv (0, 0) y = .ok (0, 0) := by
  unfold floatDiv
  dsimp only
  split_ifs with he
  · rw [zero_mul]
    exact roundPosRat_zero _
  · exact roundPosRat_zero _

theorem pyFloatNat_zero : pyFloatNat 0 = .ok (0, 0) := by
  unfold pyFloatNat
  rw [if_neg (by decide), roundPosRat_zero]



theorem mathCeilFloatDiv_exact (a b : Int) (ha : 0 ≤ a) (ha53 : a < 2^53)
    (hb : 0 < b) (hb53 : b < 2^53) :
    mathCeilFloatDiv a b = .ok ⌈(a:ℚ)/(b:ℚ)⌉ := by
  have h53n : (2:Nat)^53 = 9007199254740992 := by norm_num
  have h53z : (2:Int)^53 = 9007199254740992 := by norm_num
  have hbt : 0 < b.toNat := by omega
  have hbt53 : b.toNat < 2^53 := by omega
  obtain ⟨Mb, Eb, hfb, hbval, hEb1, hEb2, hMb, hMbhi⟩ := pyFloatNat_spec b.toNat hbt hbt53
  have hbtQ : ((b.toNat : Nat):ℚ) = ((b:ℤ):ℚ) := by
    exact_mod_cast congrArg (fun z : ℤ => (z:ℚ)) (Int.toNat_of_nonneg (le_of_lt hb))
  by_cases ha0 : a = 0
  · subst ha0
    unfold mathCeilFloatDiv
    rw [show (0:ℤ).toNat = 0 from rfl, pyFloatNat_zero, hfb]
    dsimp only
    rw [if_neg (by omega : ¬ Mb = 0), floatDiv_zero]
    dsimp only
    rw [show ceilDyadic (0, 0) = 0 from rfl, Int.cast_zero, zero_div, Int.ceil_zero]
  · have ha1 : 0 < a := by omega
    have hat : 0 < a.toNat := by omega
    have hat53 : a.toNat < 2^53 := by omega
    obtain ⟨Ma, Ea, hfa, haval, hEa1, hEa2, hMa, hMahi⟩ := pyFloatNat_spec a.toNat hat hat53
    have hatQ : ((a.toNat : Nat):ℚ) = ((a:ℤ):ℚ) := by
      exact_mod_cast congrArg (fun z : ℤ => (z:ℚ)) (Int.toNat_of_nonneg ha)
    unfold mathCeilFloatDiv
    rw [hfa, hfb]
    dsimp only
    rw [if_neg (by omega : ¬ Mb = 0)]
    have hMbQ : (0:ℚ) < (Mb:ℚ) := by exact_mod_cast hMb
    by_cases he : 0 ≤ Ea - Eb
    · have hfd : floatDiv (Ma, Ea) (Mb, Eb)
          = roundPosRat (Ma * 2^(Ea - Eb).toNat) Mb := by
        unfold floatDiv
        dsimp only
        rw [if_pos he]
      have htle : (Ea - Eb).toNat ≤ 52 := by omega
      have hNpos : 0 < Ma * 2^(Ea - Eb).toNat :=
        Nat.mul_pos hMa (pow_pos (by norm_num) _)
      have hNfuel : Ma * 2^(Ea - Eb).toNat < 2^natBitsFuel := mulPowLtFuel Ma _ hMahi htle
      have hDfuel : Mb < 2^natBitsFuel := lt_trans hMbhi pow105_lt_fuel
      have hval : ((Ma * 2^(Ea - Eb).toNat : Nat):ℚ)/((Mb:Nat):ℚ)
          = ((a.toNat:Nat):ℚ)/((b.toNat:Nat):ℚ) := by
        rw [← haval, ← hbval]
        push_cast
        rw [show ((2:ℚ)^((Ea - Eb).toNat:ℕ)) = (2:ℚ)^(Ea - Eb) from (zpow_toNat_eq _ he).symm]
        have hd1 : ((Mb:Nat):ℚ) ≠ 0 := ne_of_gt hMbQ
        have hd2 : ((Mb:Nat):ℚ) * (2:ℚ)^Eb ≠ 0 :=
          ne_of_gt (mul_pos hMbQ (zpow_pos (by norm_num) _))
        rw [div_eq_div_iff hd1 hd2]
        rw [show Ea - Eb = Ea + (-Eb) from by ring, zpow_add₀ (by norm_num : (2:ℚ) ≠ 0)]
        have hc : (2:ℚ)^(-Eb) * (2:ℚ)^Eb = 1 := by
          rw [← zpow_add₀ (by norm_num : (2:ℚ) ≠ 0)]
          norm_num
        linear_combination ((Ma:ℚ) * (2:ℚ)^Ea * ((Mb:Nat):ℚ)) * hc
      obtain ⟨M, E, hok, hceil⟩ := roundPosRat_ceil (Ma * 2^(Ea - Eb).toNat) Mb a.toNat b.toNat
        hNpos hMb hNfuel hDfuel hat hbt hat53 hbt53 hval
      rw [hfd, hok]
      dsimp only
      rw [ceilDyadic_eq M E, hceil, hatQ, hbtQ]
    · have hfd : floatDiv (Ma, Ea) (Mb, Eb)
          = roundPosRat Ma (Mb * 2^(-(Ea - Eb)).toNat) := by
        unfold floatDiv
        dsimp only
        rw [if_neg he]
      have htle : (-(Ea - Eb)).toNat ≤ 52 := by omega
      have hDpos : 0 < Mb * 2^(-(Ea - Eb)).toNat :=
        Nat.mul_pos hMb (pow_pos (by norm_num) _)
      have hDfuel : Mb * 2^(-(Ea - Eb)).toNat < 2^natBitsFuel := mulPowLtFuel Mb _ hMbhi htle
      have hNfuel : Ma < 2^natBitsFuel := lt_trans hMahi pow105_lt_fuel
      have hval : ((Ma:Nat):ℚ)/((Mb * 2^(-(Ea - Eb)).toNat : Nat):ℚ)
          = ((a.toNat:Nat):ℚ)/((b.toNat:Nat):ℚ) := by
        rw [← haval, ← hbval]
        push_cast
        rw [show ((2:ℚ)^((-(Ea - Eb)).toNat:ℕ)) = (2:ℚ)^(-(Ea - Eb)) from
          (zpow_toNat_eq _ (by omega)).symm]
        have hd1 : ((Mb:Nat):ℚ) * (2:ℚ)^(-(Ea - Eb)) ≠ 0 :=
          ne_of_gt (mul_pos hMbQ (zpow_pos (by norm_num) _))
        have hd2 : ((Mb:Nat):ℚ) * (2:ℚ)^Eb ≠ 0 :=
          ne_of_gt (mul_pos hMbQ (zpow_pos (by norm_num) _))
        rw [div_eq_div_iff hd1 hd2]
        have hc : (2:ℚ)^(-(Ea - Eb)) * (2:ℚ)^(Ea - Eb) = 1 := by
          rw [← zpow_add₀ (by norm_num : (2:ℚ) ≠ 0)]
          norm_num
        have hsplit : (2:ℚ)^(Ea - Eb) * (2:ℚ)^Eb = (2:ℚ)^Ea := by
          rw [← zpow_add₀ (by norm_num : (2:ℚ) ≠ 0)]
          congr 1
          ring
        linear_combination (-((Ma:ℚ) * ((Mb:Nat):ℚ) * (2:ℚ)^Eb)) * hc
          + ((Ma:ℚ) * ((Mb:Nat):ℚ) * (2:ℚ)^(-(Ea - Eb))) * hsplit
      obtain ⟨M, E, hok, hceil⟩ := roundPosRat_ceil Ma (Mb * 2^(-(Ea - Eb)).toNat) a.toNat b.toNat
        hMa hDpos hNfuel hDfuel hat hbt hat53 hbt53 hval
      rw [hfd, hok]
      dsimp only
      rw [ceilDyadic_eq M E, hceil, hatQ, hbtQ]

/-! ## Claim theorems -/

/-- Claim C2 (code bug): with a v1 memory limit at or above the
physical-memory ceiling (here 16 GiB), hierarchical accounting on, and
`memory.stat` containing `hierarchical_memory_limit 1073741824`, the claim
says `memory_limit_in_bytes()` returns 1073741824; the code instead applies
`len()` to the already-extracted integer scan value and raises `TypeError`.
Below the ceiling the limit is returned verbatim. -/
theorem claim_c2_memory_limit_code_bug :
    CgroupV1Subsystem.memory_limit_in_bytes 17179869184 9223372036854771712 true
        ["cache 0\n", "hierarchical_memory_limit 1073741824\n"] =
      .error "TypeError: object of type int has no len()" ∧
    CgroupV1Subsystem.memory_limit_in_bytes 17179869184 1073741824 true
        ["cache 0\n", "hierarchical_memory_limit 536870912\n"] = .ok 1073741824 :=
  ⟨rfl, rfl⟩

/-- Claim C3 counterexample: when subsystem construction succeeds but the
eager memory-limit read raises, the exception propagates out of the
constructor (the read happens outside the `try` block), so the constructor
does not complete normally with `is_containerized() = False`. -/
theorem claim_c3_counterexample :
    OSContainer.init (S := Unit) (.ok ()) (fun _ => .error "TypeError") =
      .error "TypeError" := rfl

/-- Claim C3 amended: failures of topology resolution / subsystem
construction are caught and leave `is_containerized() = False`; a failure
of the eager memory-limit read propagates out of the constructor; on
success the limit is cached once and `memory_limit_in_bytes()` serves the
cache (the accessor has no access to the reader at all). -/
theorem claim_c3_amended (S : Type) (build : Except String S)
    (mem : S → Except String Int) :
    (∀ e, build = .error e →
      OSContainer.init build mem = .ok ⟨false, none, none⟩ ∧
      (OSContainer.mk false none none : OSContainer S).is_containerized = false) ∧
    (∀ sub m, build = .ok sub → mem sub = .ok m →
      OSContainer.init build mem = .ok ⟨true, some sub, some m⟩ ∧
      (OSContainer.mk true (some sub) (some m)).is_containerized = true ∧
      (OSContainer.mk true (some sub) (some m)).memory_limit_in_bytes = .ok m) ∧
    (∀ sub e, build = .ok sub → mem sub = .error e →
      OSContainer.init build mem = .error e) := by
  refine ⟨fun e he => ?_, fun sub m hb hm => ?_, fun sub e hb hm => ?_⟩
  · subst he
    exact ⟨rfl, rfl⟩
  · subst hb
    simp [OSContainer.init, hm, OSContainer.is_containerized, OSContainer.memory_limit_in_bytes]
  · subst hb
    simp [OSContainer.init, hm]

/-- Witness for the amended C3 at a concrete successful environment. -/
theorem claim_c3_witness :
    OSContainer.init (S := Unit) (.ok ()) (fun _ => .ok 42) =
        .ok ⟨true, some (), some 42⟩ ∧
      (OSContainer.mk true (some ()) (some 42) : OSContainer Unit).is_containerized = true ∧
      (OSContainer.mk true (some ()) (some 42) : OSContainer Unit).memory_limit_in_bytes =
        .ok 42 :=
  (claim_c3_amended Unit (.ok ()) (fun _ => .ok 42)).2.1 () 42 rfl rfl

/-- Claim C4 counterexample: with `root = "/a"`, `mount_point = "/m"`,
`cgroup_path = "/a/b/a"`, the code yields `"/m/b"` (it removes every
occurrence of the root, `str.replace` semantics), while the claim's
"only its leading root prefix removed" yields `"/m/b/a"`. -/
theorem claim_c4_counterexample :
    CgroupV1Controller.set_subsystem_path "/a" "/m" "/a/b/a" ≠
      SpecModel.v1SubsystemPathClaim "/a" "/m" "/a/b/a" := by decide

/-- Claim C4 amended: path resolution is as claimed except that in the
strict-prefix case every occurrence of `root` is removed from
`cgroup_path` (Python `str.replace(root, "")`), not only the leading
one. -/
theorem claim_c4_amended (root mount_point cgroup_path : String) :
    CgroupV1Controller.set_subsystem_path root mount_point cgroup_path =
      SpecModel.v1SubsystemPathAmended root mount_point cgroup_path := by
  simp only [CgroupV1Controller.set_subsystem_path, SpecModel.v1SubsystemPathAmended]
  split_ifs <;> first | rfl | tauto

/-- Claim C5: for every v2 `cpu.weight` in `1..10000` other than 100,
`cpu_shares()` returns `scaled = ⌊(262142·w - 1) / 9999⌋ + 2` when that is
at most 1024, and otherwise the multiple of 1024 nearest to `scaled`, ties
broken toward the lower multiple. -/
theorem claim_c5_v2_cpu_shares (w : Int) (h1 : 1 ≤ w) (h2 : w ≤ 10000)
    (h100 : w ≠ 100) :
    CgroupV2Subsystem.cpu_shares w = SpecModel.v2CpuShares w := by
  simp only [CgroupV2Subsystem.cpu_shares, SpecModel.v2CpuShares, SpecModel.v2SharesScaled,
    SpecModel.nearestMultipleOf1024, truncDivInt, ceilDivInt, PER_CPU_SHARES, NO_LIMIT]
  rw [if_neg h100, if_pos (show (0 : Int) ≤ 262142 * w - 1 by omega)]
  obtain ⟨x, hx⟩ : ∃ x : Int, x = (262142 * w - 1) / 9999 + 2 := ⟨_, rfl⟩
  rw [← hx]
  clear hx
  split_ifs <;> omega

/-- Witness for C5 at weight 200. -/
theorem claim_c5_witness :
    CgroupV2Subsystem.cpu_shares 200 = SpecModel.v2CpuShares 200 :=
  claim_c5_v2_cpu_shares 200 (by decide) (by decide) (by decide)

/-- Claim C6 counterexample: the v1 `cpu_shares()` also returns -1 when the
raw value read is itself -1 (it is returned verbatim, being ≠ 1024), so
"returns -1 iff the raw v1 value is 1024" fails at raw value -1. -/
theorem claim_c6_counterexample :
    CgroupV1Subsystem.cpu_shares (-1) = NO_LIMIT ∧ (-1 : Int) ≠ 1024 := by decide

/-- Claim C6 amended: v1 `cpu_shares()` returns -1 iff the raw value is
1024 or is itself -1; every other raw v1 value is returned verbatim; for
v2 weights in the kernel range `1..10000`, `cpu_shares()` returns -1 iff
the weight is 100. -/
theorem claim_c6_amended :
    (∀ s : Int, CgroupV1Subsystem.cpu_shares s = NO_LIMIT ↔ (s = 1024 ∨ s = -1)) ∧
    (∀ s : Int, s ≠ 1024 → CgroupV1Subsystem.cpu_shares s = s) ∧
    (∀ w : Int, 1 ≤ w → w ≤ 10000 →
      (CgroupV2Subsystem.cpu_shares w = NO_LIMIT ↔ w = 100)) := by
  refine ⟨fun s => ?_, fun s hs => ?_, fun w hw1 hw2 => ?_⟩
  · simp only [CgroupV1Subsystem.cpu_shares, NO_LIMIT, PER_CPU_SHARES]
    split_ifs with h <;> omega
  · simp only [CgroupV1Subsystem.cpu_shares, NO_LIMIT, PER_CPU_SHARES]
    rw [if_neg hs]
  · by_cases h : w = 100
    · subst h
      simp [CgroupV2Subsystem.cpu_shares, NO_LIMIT]
    · simp only [CgroupV2Subsystem.cpu_shares, NO_LIMIT, PER_CPU_SHARES, truncDivInt,
        ceilDivInt]
      rw [if_neg h, if_pos (show (0 : Int) ≤ 262142 * w - 1 by omega)]
      constructor
      · intro habs
        exfalso
        revert habs
        obtain ⟨x, hx⟩ : ∃ x : Int, x = (262142 * w - 1) / 9999 + 2 := ⟨_, rfl⟩
        rw [← hx]
        have hx28 : 28 ≤ x := by omega
        clear hx
        split_ifs <;> omega
      · intro h100
        exact absurd h100 h

/-- Witness for the amended C6 at raw v1 value 5 and v2 weight 200. -/
theorem claim_c6_witness :
    CgroupV1Subsystem.cpu_shares 5 = 5 ∧
      (CgroupV2Subsystem.cpu_shares 200 = NO_LIMIT ↔ (200 : Int) = 100) :=
  ⟨claim_c6_amended.2.1 5 (by decide), claim_c6_amended.2.2 200 (by decide) (by decide)⟩

/-- Claim C7 (code bug): on matching `cpu.max` content the claimed mapping
holds (`"max"` quota → -1, integers parsed, period parsed), but on content
matching neither format the code raises `TypeError` (`len(None)`) instead
of returning -1: the `len(...) == 0` guard is unreachable because a
non-match is `None`, not an empty tuple. -/
theorem claim_c7_cpu_max_code_bug :
    CgroupV2Subsystem.cpu_quota "max 100000" = .ok (-1) ∧
    CgroupV2Subsystem.cpu_quota "250000 100000" = .ok 250000 ∧
    CgroupV2Subsystem.cpu_period "max 100000" = .ok 100000 ∧
    CgroupV2Subsystem.cpu_quota "" =
      .error "TypeError: object of type NoneType has no len()" ∧
    CgroupV2Subsystem.cpu_period "" =
      .error "TypeError: object of type NoneType has no len()" :=
  ⟨rfl, rfl, rfl, rfl, rfl⟩

/-- Claim C8 counterexample: recorded cpuset path `"/random"` (not under
the canonical prefix), new mount `"/sys/fs/cgroup/cpuset"`: the claim says
the newest wins, but the code keeps `"/random"` — its test
`mount_path.find("/sys/fs/cgroup") > 0` is false both when the recorded
path starts with the canonical prefix (index 0) and when it does not
contain it (-1). -/
theorem claim_c8_counterexample :
    read_mount_points_cpuset_mount (some "/random") "/sys/fs/cgroup/cpuset" ≠
      SpecModel.cpusetClaimRule "/random" "/sys/fs/cgroup/cpuset" := by decide

/-- Claim C8 amended: on a duplicate cpuset mount the new path replaces the
recorded one iff the recorded path contains `/sys/fs/cgroup` at a strictly
positive index; in particular a recorded path under the canonical prefix is
kept (whatever the new path is), and a recorded path not containing the
canonical prefix is kept as well — the new path's location is never
consulted. -/
theorem claim_c8_amended (e t : String) :
    (Py.startswith e "/sys/fs/cgroup" = true →
      read_mount_points_cpuset_mount (some e) t = e) ∧
    (Py.find e "/sys/fs/cgroup" ≤ 0 →
      read_mount_points_cpuset_mount (some e) t = e) ∧
    (0 < Py.find e "/sys/fs/cgroup" →
      read_mount_points_cpuset_mount (some e) t = t) := by
  refine ⟨fun h => ?_, fun h => ?_, fun h => ?_⟩
  · have h0 : Py.find e "/sys/fs/cgroup" = 0 := by
      unfold Py.find
      rw [findL_of_startswith _ _ _ h]
      rfl
    simp only [read_mount_points_cpuset_mount]
    rw [if_neg (by omega)]
  · simp only [read_mount_points_cpuset_mount]
    rw [if_neg (by omega)]
  · simp only [read_mount_points_cpuset_mount]
    rw [if_pos h]

/-- Witness for the amended C8: a canonical recorded path is kept. -/
theorem claim_c8_witness :
    read_mount_points_cpuset_mount (some "/sys/fs/cgroup/cpuset") "/other" =
      "/sys/fs/cgroup/cpuset" :=
  (claim_c8_amended "/sys/fs/cgroup/cpuset" "/other").1 (by decide)

/-- Claim C9: the concrete round trip
`scanf("%s - %d errors, %d warnings", "/usr/sbin/sendmail - 0 errors, 4 warnings")`
yields `("/usr/sbin/sendmail", 0, 4)`; every returned tuple has exactly one
element per non-discarded (capturing) token of the compiled format, so
`%*` tokens never contribute; and a line the pattern does not match yields
the "no match" outcome (`None`), not an error. -/
theorem claim_c9_scanf :
    Scanf.scanf "%s - %d errors, %d warnings" "/usr/sbin/sendmail - 0 errors, 4 warnings" =
        .ok (some [.vstr "/usr/sbin/sendmail", .vint 0, .vint 4]) ∧
    (∀ fmt line res, Scanf.scanf fmt line = .ok (some res) →
      res.length = Scanf.captureCount (Scanf.scanf_compile fmt).1) ∧
    (∀ fmt line, Scanf.searchItems (Scanf.scanf_compile fmt).1 line.toList = none →
      Scanf.scanf fmt line = .ok none) :=
  ⟨rfl, Scanf.scanf_result_length, Scanf.scanf_no_match⟩

/-- Witness for C9: its second part applied to the concrete round trip, and
its third part applied to format `%d` on a non-matching line. -/
theorem claim_c9_witness :
    ([Scanf.PyVal.vstr "/usr/sbin/sendmail", .vint 0, .vint 4].length =
      Scanf.captureCount (Scanf.scanf_compile "%s - %d errors, %d warnings").1) ∧
    Scanf.scanf "%d" "abc" = .ok none :=
  ⟨claim_c9_scanf.2.1 "%s - %d errors, %d warnings"
      "/usr/sbin/sendmail - 0 errors, 4 warnings" _ claim_c9_scanf.1,
    claim_c9_scanf.2.2 "%d" "abc" (by rfl)⟩


set_option maxRecDepth 4000 in
/-- Claim C1 counterexample: the claimed exact-rational reading of
`active_processor_count` diverges from the program once the binary64
computation is inexact.  With quota `2^53 + 1`, period 1, shares -1, a
huge positive host count and `prefer_container_quota = True`, the program
(like Python) rounds `float(2^53 + 1)` down to `2^53` and returns `2^53`,
while the claimed formula `⌈quota / period⌉` gives `2^53 + 1`. -/
theorem claim_c1_counterexample :
    (0:ℤ) < 1152921504606846976 ∧
    CgroupSubsystem.active_processor_count 9007199254740993 1 (-1) true 1152921504606846976
      = .ok 9007199254740992 ∧
    SpecModel.activeProcessorCount 9007199254740993 1 (-1) true 1152921504606846976
      = 9007199254740993 := by
  refine ⟨by norm_num, ?_, ?_⟩
  · rfl
  · simp only [SpecModel.activeProcessorCount]
    norm_num [Int.ceil_intCast, min_def]

/-- Claim C1 amended: for quota, period and shares below `2^53` (the
binary64 exactness threshold, far above any value a cgroup file can
meaningfully hold) and a positive host count, `active_processor_count`
returns exactly the claim's formula: `quota_count = ⌈quota / period⌉`
when `quota > -1` and `period > 0` else 0; `share_count = ⌈shares/1024⌉`
when `shares > -1` else 0; `limit_count` by the four-way selection on
which counts are nonzero; result clamped to the host CPU count
(`mathCeilFloatDiv_exact` supplies the equality of the float ceilings
with the rational ceilings). -/
theorem claim_c1_amended (quota period share : Int) (prefer : Bool) (host : Int)
    (_hhost : 0 < host) (hq : quota < 2^53) (hp : period < 2^53) (hs : share < 2^53) :
    CgroupSubsystem.active_processor_count quota period share prefer host =
      .ok (SpecModel.activeProcessorCount quota period share prefer host) := by
  simp only [CgroupSubsystem.active_processor_count, SpecModel.activeProcessorCount,
    NO_LIMIT, PER_CPU_SHARES]
  by_cases hqp : (-1:ℤ) < quota ∧ 0 < period
  · rw [if_pos hqp, if_pos hqp,
      mathCeilFloatDiv_exact quota period (by omega) hq hqp.2 hp]
    by_cases hsh : (-1:ℤ) < share
    · rw [if_pos hsh, if_pos hsh,
        mathCeilFloatDiv_exact share 1024 (by omega) hs (by norm_num) (by norm_num)]
      dsimp only
      norm_num
    · rw [if_neg hsh, if_neg hsh]
  · rw [if_neg hqp, if_neg hqp]
    by_cases hsh : (-1:ℤ) < share
    · rw [if_pos hsh, if_pos hsh,
        mathCeilFloatDiv_exact share 1024 (by omega) hs (by norm_num) (by norm_num)]
      dsimp only
      norm_num
    · rw [if_neg hsh, if_neg hsh]

set_option maxRecDepth 4000 in
/-- Claim C1 witness: the amended theorem at quota 250000, period 100000,
shares 2252, `prefer_container_quota = False`, 8 host CPUs; the program
returns `min(8, min(⌈2.5⌉, ⌈2.199..⌉)) = 3`. -/
theorem claim_c1_witness :
    CgroupSubsystem.active_processor_count 250000 100000 2252 false 8 =
      .ok (SpecModel.activeProcessorCount 250000 100000 2252 false 8) ∧
    CgroupSubsystem.active_processor_count 250000 100000 2252 false 8 = .ok 3 := by
  refine ⟨claim_c1_amended 250000 100000 2252 false 8 (by norm_num) (by norm_num) (by norm_num)
    (by norm_num), ?_⟩
  rfl

set_option maxRecDepth 100000 in
/-- Claim C10 counterexample: a zero quota does not always yield the full
host count.  With `period = 10^309` (at `2^1024` and beyond, binary64
overflows) the conversion `float(period)` raises `OverflowError`, which
propagates out of `active_processor_count` instead of the claimed 8. -/
theorem claim_c10_counterexample :
    (0:ℤ) < 1000000000000000000000000000000000000000000000000000000000000000000000000000000000000000000000000000000000000000000000000000000000000000000000000000000000000000000000000000000000000000000000000000000000000000000000000000000000000000000000000000000000000000000000000000000000000000000000000000000000000000000000 ∧
    CgroupSubsystem.active_processor_count 0 1000000000000000000000000000000000000000000000000000000000000000000000000000000000000000000000000000000000000000000000000000000000000000000000000000000000000000000000000000000000000000000000000000000000000000000000000000000000000000000000000000000000000000000000000000000000000000000000000000000000000000000000 NO_LIMIT false 8 =
      .error "OverflowError: int too large to convert to float" := by
  constructor
  · norm_num
  · rfl

/-- Claim C10 amended: with quota 0, shares `NO_LIMIT`, and a positive
period below `2^53`, `quota_count = ⌈0 / period⌉ = 0`, so no CPU
constraint is derived and the full host CPU count is returned, for any
host count and either flag value. -/
theorem claim_c10_amended (period : Int) (prefer : Bool) (host : Int)
    (hp : 0 < period) (hp53 : period < 2^53) :
    CgroupSubsystem.active_processor_count 0 period NO_LIMIT prefer host = .ok host := by
  unfold CgroupSubsystem.active_processor_count
  rw [if_pos (⟨by norm_num [NO_LIMIT], hp⟩ : NO_LIMIT < 0 ∧ 0 < period),
    mathCeilFloatDiv_exact 0 period le_rfl (by norm_num) hp hp53,
    Int.cast_zero, zero_div, Int.ceil_zero]
  dsimp only
  rw [if_neg (by norm_num [NO_LIMIT] : ¬ NO_LIMIT < NO_LIMIT)]
  dsimp only
  rw [if_neg (by norm_num : ¬ ((0:ℤ) ≠ 0 ∧ (0:ℤ) ≠ 0)), if_neg (by norm_num : ¬ (0:ℤ) ≠ 0),
    if_neg (by norm_num : ¬ (0:ℤ) ≠ 0), min_self]

/-- Claim C10 witness: the amended theorem at period 100000, 8 host CPUs,
`prefer_container_quota = False`. -/
theorem claim_c10_witness :
    CgroupSubsystem.active_processor_count 0 100000 NO_LIMIT false 8 = .ok 8 :=
  claim_c10_amended 100000 false 8 (by norm_num) (by norm_num)
end Oscontainer
